import Mathlib

/-!
Verification development for the DNSSEC signature-maintenance engine
(src/knot/dnssec/zone-sign.c).  The C code is shallowly embedded: pure
helpers become Lean functions, out-parameters become returned values,
the opaque cryptographic sign/verify capability becomes an explicit
oracle parameter, and error codes become an inductive type.  Functions
of the repository that live outside the signing engine (libknot rrset,
changeset and time primitives) are modelled from the specification and
marked as such in their doc comments.
-/

namespace Knot

/-! ### Basic types and constants -/

def KNOT_RRTYPE_A : Nat := 1
def KNOT_RRTYPE_SOA : Nat := 6
def KNOT_RRTYPE_DS : Nat := 43
def KNOT_RRTYPE_RRSIG : Nat := 46
def KNOT_RRTYPE_NSEC : Nat := 47
def KNOT_RRTYPE_DNSKEY : Nat := 48
def KNOT_RRTYPE_NSEC3 : Nat := 50
def KNOT_RRTYPE_NSEC3PARAM : Nat := 51
def KNOT_RRTYPE_CDS : Nat := 59
def KNOT_RRTYPE_CDNSKEY : Nat := 60

/-- Error codes of the engine.  Exact numeric values of the C codes are
irrelevant to the claims; only distinctness matters.  ecrypto carries the
code of a hard cryptographic verification or signing failure (any
dnssec error other than DNSSEC_INVALID_SIGNATURE). -/
inductive Err where
  | einval
  | enomem
  | ecrypto (code : Nat)
deriving DecidableEq

/-- Outcome of knot_check_signature: KNOT_EOK, DNSSEC_INVALID_SIGNATURE
(an expected data condition), or a hard error. -/
inductive SigCheck where
  | ok
  | invalid
  | hard (e : Err)
deriving DecidableEq

/-- One rdata instance.  For RRSIG rdata the three header fields read by
the engine (knot_rrsig_key_tag, knot_rrsig_type_covered,
knot_rrsig_sig_expiration) are explicit; payload stands for the rest of
the wire data and gives distinct signatures distinct identity. -/
structure Rdata where
  keytag : Nat
  type_covered : Nat
  expiration : Nat
  payload : Nat
deriving DecidableEq

/-- An RRset: owner name (names are abstracted to Nat), type, and the
ordered rdata instances.  Class and TTL play no role in any claim and
are omitted. -/
structure RRset where
  owner : Nat
  ty : Nat
  rdatas : List Rdata
deriving DecidableEq

/-- knot_rrset_empty: no rdata (a NULL rrset pointer is modelled as an
RRset with empty rdatas). -/
def knot_rrset_empty (r : RRset) : Bool := r.rdatas.isEmpty

/-- Modelled from the spec: knot_rrset_equal with KNOT_RRSET_COMPARE_WHOLE
compares owner, type and the whole rdata set. -/
def knot_rrset_equal (a b : RRset) : Bool :=
  a.owner == b.owner && a.ty == b.ty && decide (a.rdatas = b.rdatas)

/-- A zone key as seen by the signing pass: role and lifecycle flags,
derived keytag, the dname of the zone the key belongs to
(dnssec_key_get_dname), and its DNSKEY / DS rdata wire images. -/
structure ZoneKey where
  keytag : Nat
  dname : Nat
  is_zsk : Bool
  is_ksk : Bool
  is_active : Bool
  is_post_active : Bool
  is_ready : Bool
  is_public : Bool
  dnskey_rdata : List Nat
  ds_rdata : List Nat
deriving DecidableEq

/-- A zone tree node: owner, the list of RRsets stored at the node, and
the two node flags the signer reads (NODE_FLAGS_NONAUTH and
NODE_FLAGS_DELEG). -/
structure ZoneNode where
  owner : Nat
  rrsets : List RRset
  nonauth : Bool
  deleg : Bool
deriving DecidableEq

/-- node_rrset: the RRset of the given type at the node, or an
initialized-empty RRset when the type is absent. -/
def node_rrset (n : ZoneNode) (ty : Nat) : RRset :=
  match n.rrsets.find? (fun r => r.ty == ty) with
  | some r => r
  | none => { owner := n.owner, ty := ty, rdatas := [] }

/-- node_rrtype_exists: the node holds an RRset of the given type. -/
def node_rrtype_exists (n : ZoneNode) (ty : Nat) : Bool :=
  n.rrsets.any (fun r => r.ty == ty)

/-- Zone contents: apex node plus the main and NSEC3 trees, each
linearized in traversal order.  By convention the apex node also appears
in nodes; the separate apex field serves the apex-RRset comparisons. -/
structure ZoneContents where
  apex : ZoneNode
  nodes : List ZoneNode
  nsec3_nodes : List ZoneNode
deriving DecidableEq

/-- zone_contents_find_node: owner lookup in the main tree. -/
def zone_contents_find_node (z : ZoneContents) (owner : Nat) : Option ZoneNode :=
  z.nodes.find? (fun n => n.owner == owner)

/-- A changeset: ordered additions and removals of RRsets.  The engine
only ever appends (changeset_add_addition / changeset_add_removal with
flags 0). -/
structure Changeset where
  additions : List RRset
  removals : List RRset
deriving DecidableEq

def csEmpty : Changeset := { additions := [], removals := [] }

def csAppend (a b : Changeset) : Changeset :=
  { additions := a.additions ++ b.additions, removals := a.removals ++ b.removals }

/-- Modelled from the spec: changeset_add_removal with flags 0 records
the removal. -/
def changeset_add_removal (ch : Changeset) (rr : RRset) : Changeset :=
  { ch with removals := ch.removals ++ [rr] }

/-- Modelled from the spec: changeset_add_addition with flags 0 records
the addition. -/
def changeset_add_addition (ch : Changeset) (rr : RRset) : Changeset :=
  { ch with additions := ch.additions ++ [rr] }

/-- All rdata scheduled for removal by a changeset. -/
def csRemRdatas (c : Changeset) : List Rdata := c.removals.flatMap RRset.rdatas

/-- All rdata scheduled for addition by a changeset. -/
def csAddRdatas (c : Changeset) : List Rdata := c.additions.flatMap RRset.rdatas

/-- CDS/CDNSKEY publication mode of the policy. -/
inductive CdsPublish where
  | rollover
  | always
  | double_ds
  | empty
  | off
deriving DecidableEq

/-- The kdnssec context together with the policy fields the signing
engine reads.  now and rrsig_lifetime are knot_time values. -/
structure DnssecCtx where
  now : Nat
  rrsig_lifetime : Nat
  signing_threads : Nat
  rrsig_drop_existing : Bool
  cds_cdnskey_publish : CdsPublish
  offline_ksk : Bool
  offline_rrsig : Option RRset
  zone_dname : Nat
deriving DecidableEq

/-- The opaque cryptographic capability: check verifies one RRSIG rdata
of the covered RRset against a key (knot_check_signature), sign produces
a fresh RRSIG rdata for the covered RRset with a key (knot_sign_rrset).
Signing failures are not modelled; hard failures surface through check. -/
structure SignOracle where
  check : RRset → Rdata → ZoneKey → SigCheck
  sign : RRset → ZoneKey → Rdata

/-! ### knot_time arithmetic.
Modelled from the spec: knot_time value 0 means "not set / infinitely
far", an expiration minimum treats 0 as the identity, and the pass
expiration is clamped by now + rrsig_lifetime as an upper bound. -/

/-- Modelled from the spec: minimum of two knot_time values where 0 acts
as infinity (identity). -/
def knot_time_min (a b : Nat) : Nat :=
  if a = 0 then b else if b = 0 then a else min a b

/-- Modelled from the spec: knot_time addition; 0 (infinity) absorbs. -/
def knot_time_add (a b : Nat) : Nat :=
  if a = 0 then 0 else a + b

/-! ### Key policy -/

/-- knot_zone_sign_use_key (zone-sign.c): decides whether a key signs a
given covered RRset.  The C hardcodes cds_sign_by_ksk = true. -/
def knot_zone_sign_use_key (key : ZoneKey) (covered : RRset) : Bool :=
  if !key.is_active && !key.is_post_active then false
  else
    let cds_sign_by_ksk := true
    let is_apex := covered.owner == key.dname
    if !is_apex then key.is_zsk
    else if covered.ty == KNOT_RRTYPE_DNSKEY then key.is_ksk
    else if covered.ty == KNOT_RRTYPE_CDS || covered.ty == KNOT_RRTYPE_CDNSKEY then
      (if cds_sign_by_ksk then key.is_ksk else key.is_zsk)
    else key.is_zsk

/-! ### RRset signing primitives -/

/-- valid_signature_exists: scans the RRSIG rdata entries for one whose
keytag and covered type match the key and which cryptographically
verifies. -/
def valid_signature_exists (o : SignOracle) (covered rrsigs : RRset) (key : ZoneKey) : Bool :=
  rrsigs.rdatas.any (fun rd =>
    rd.keytag == key.keytag && rd.type_covered == covered.ty &&
    decide (o.check covered rd key = SigCheck.ok))

/-- all_signatures_exist: every key eligible per the key policy has a
valid signature. -/
def all_signatures_exist (o : SignOracle) (keys : List ZoneKey) (covered rrsigs : RRset) : Bool :=
  keys.all (fun key =>
    !knot_zone_sign_use_key key covered ||
    valid_signature_exists o covered rrsigs key)

/-- Modelled from the spec: knot_synth_rrsig restricts an RRSIG rdata
set to the entries covering one type (the synthesized
covered-type-restricted view); an empty result stands for KNOT_ENOENT. -/
def knot_synth_rrsig (type_covered : Nat) (rrsigs : List Rdata) : List Rdata :=
  rrsigs.filter (fun rd => rd.type_covered == type_covered)

/-- Classification of one existing RRSIG rdata entry by the inner key
loop of remove_expired_rrsigs: keep (valid signature by an active or
post-active key with matching keytag), drop (schedule for removal), or
abort with a hard error. -/
inductive EntryOutcome where
  | keep
  | drop
  | abort (e : Err)
deriving DecidableEq

/-- The inner key loop of remove_expired_rrsigs: scan the key list for
an active or post-active key with the keytag of the entry; the first
such key that verifies keeps the entry, a hard verification error
aborts, an invalid signature continues the scan; exhausting the list
schedules the entry for removal. -/
def remove_expired_key_scan (o : SignOracle) (covered : RRset) (rd : Rdata) :
    List ZoneKey → EntryOutcome
  | [] => .drop
  | key :: rest =>
    if (!key.is_active && !key.is_post_active) || key.keytag != rd.keytag then
      remove_expired_key_scan o covered rd rest
    else
      match o.check covered rd key with
      | .ok => .keep
      | .invalid => remove_expired_key_scan o covered rd rest
      | .hard e => .abort e

/-- The outer rdata loop of remove_expired_rrsigs: accumulate the
entries to remove and the earliest kept expiration; a hard error aborts
the whole operation, discarding the pending removals. -/
def remove_expired_entries (o : SignOracle) (keys : List ZoneKey) (covered : RRset) :
    List Rdata → List Rdata → Nat → Except Err (List Rdata × Nat)
  | [], to_remove, exp => .ok (to_remove, exp)
  | rd :: rest, to_remove, exp =>
    match remove_expired_key_scan o covered rd keys with
    | .keep =>
      remove_expired_entries o keys covered rest to_remove (knot_time_min rd.expiration exp)
    | .drop =>
      remove_expired_entries o keys covered rest (to_remove ++ [rd]) exp
    | .abort e => .error e

/-- remove_expired_rrsigs (zone-sign.c): for each existing RRSIG rdata
entry covering the RRset, keep it when an active or post-active key with
matching keytag verifies it (noting its expiration), abort on a hard
verification error, otherwise add it to one removal RRset in the
changeset. -/
def remove_expired_rrsigs (o : SignOracle) (keys : List ZoneKey) (covered rrsigs : RRset)
    (changeset : Changeset) (expires_at : Nat) : Except Err (Changeset × Nat) :=
  if knot_rrset_empty rrsigs then .ok (changeset, expires_at)
  else
    let synth := knot_synth_rrsig covered.ty rrsigs.rdatas
    match remove_expired_entries o keys covered synth [] expires_at with
    | .error e => .error e
    | .ok (to_remove, exp) =>
      if to_remove.isEmpty then .ok (changeset, exp)
      else .ok (changeset_add_removal changeset
                  { owner := rrsigs.owner, ty := KNOT_RRTYPE_RRSIG, rdatas := to_remove }, exp)

/-- The key loop of add_missing_rrsigs: for each eligible key without a
valid signature, produce a fresh signature and note its expiration. -/
def add_missing_keys_loop (o : SignOracle) (covered rrsigs : RRset) :
    List ZoneKey → List Rdata → Nat → List Rdata × Nat
  | [], to_add, exp => (to_add, exp)
  | key :: rest, to_add, exp =>
    if !knot_zone_sign_use_key key covered then
      add_missing_keys_loop o covered rrsigs rest to_add exp
    else if valid_signature_exists o covered rrsigs key then
      add_missing_keys_loop o covered rrsigs rest to_add exp
    else
      let rd := o.sign covered key
      add_missing_keys_loop o covered rrsigs rest (to_add ++ [rd])
        (knot_time_min exp rd.expiration)

/-- add_missing_rrsigs (zone-sign.c): for the apex DNSKEY RRset with an
offline RRSIG present, use the offline RRSIG verbatim; otherwise sign
with every eligible key that lacks a valid signature, collecting the
fresh signatures into one addition RRset. -/
def add_missing_rrsigs (o : SignOracle) (ctx : DnssecCtx) (keys : List ZoneKey)
    (covered rrsigs : RRset) (changeset : Changeset) (expires_at : Nat) : Changeset × Nat :=
  if covered.ty == KNOT_RRTYPE_DNSKEY && covered.owner == ctx.zone_dname &&
     ctx.offline_rrsig.isSome then
    (changeset_add_addition changeset (ctx.offline_rrsig.getD covered), expires_at)
  else
    match add_missing_keys_loop o covered rrsigs keys [] expires_at with
    | (to_add, exp) =>
      if to_add.isEmpty then (changeset, exp)
      else (changeset_add_addition changeset
              { owner := covered.owner, ty := KNOT_RRTYPE_RRSIG, rdatas := to_add }, exp)

/-- remove_rrset_rrsigs (zone-sign.c): schedule the removal of every
RRSIG rdata covering the given type at the given owner. -/
def remove_rrset_rrsigs (owner ty : Nat) (rrsigs : RRset) (changeset : Changeset) : Changeset :=
  let synth := knot_synth_rrsig ty rrsigs.rdatas
  if synth.isEmpty then changeset
  else changeset_add_removal changeset { owner := owner, ty := KNOT_RRTYPE_RRSIG, rdatas := synth }

/-- force_resign_rrset (zone-sign.c): drop all existing RRSIGs for the
covered type, then add signatures for every eligible key with no
existing-signature filter. -/
def force_resign_rrset (o : SignOracle) (ctx : DnssecCtx) (keys : List ZoneKey)
    (covered rrsigs : RRset) (changeset : Changeset) : Changeset :=
  let cs :=
    if !knot_rrset_empty rrsigs then
      remove_rrset_rrsigs covered.owner covered.ty rrsigs changeset
    else changeset
  (add_missing_rrsigs o ctx keys covered { owner := covered.owner, ty := KNOT_RRTYPE_RRSIG, rdatas := [] } cs 0).1

/-- resign_rrset (zone-sign.c): remove expired or orphaned signatures,
then add the missing ones. -/
def resign_rrset (o : SignOracle) (ctx : DnssecCtx) (keys : List ZoneKey)
    (covered rrsigs : RRset) (changeset : Changeset) (expires_at : Nat) :
    Except Err (Changeset × Nat) :=
  match remove_expired_rrsigs o keys covered rrsigs changeset expires_at with
  | .error e => .error e
  | .ok (cs, exp) => .ok (add_missing_rrsigs o ctx keys covered rrsigs cs exp)

/-- remove_standalone_rrsigs (zone-sign.c): remove every RRSIG rdata
whose covered type no longer exists as an RRset on the node. -/
def remove_standalone_rrsigs (node : ZoneNode) (rrsigs : RRset) (changeset : Changeset) :
    Changeset :=
  rrsigs.rdatas.foldl
    (fun cs rd =>
      if node_rrtype_exists node rd.type_covered then cs
      else changeset_add_removal cs { owner := rrsigs.owner, ty := rrsigs.ty, rdatas := [rd] })
    changeset

/-- knot_zone_sign_rr_should_be_signed (zone-sign.c): never sign RRSIGs;
at a delegation point sign only NSEC and DS. -/
def knot_zone_sign_rr_should_be_signed (node : Option ZoneNode) (rrset : RRset) : Bool :=
  match node with
  | none => false
  | some n =>
    if knot_rrset_empty rrset then false
    else if rrset.ty == KNOT_RRTYPE_RRSIG then false
    else if n.deleg && !(rrset.ty == KNOT_RRTYPE_NSEC || rrset.ty == KNOT_RRTYPE_DS) then false
    else true

/-- The RRset loop of sign_node_rrsets: skip RRSIG RRsets and RRsets
that should not be signed; force-resign or resign the rest. -/
def sign_node_rrsets_loop (o : SignOracle) (ctx : DnssecCtx) (keys : List ZoneKey)
    (node : ZoneNode) (rrsigs : RRset) :
    List RRset → Changeset → Nat → Except Err (Changeset × Nat)
  | [], cs, exp => .ok (cs, exp)
  | r :: rest, cs, exp =>
    if r.ty == KNOT_RRTYPE_RRSIG then
      sign_node_rrsets_loop o ctx keys node rrsigs rest cs exp
    else if !knot_zone_sign_rr_should_be_signed (some node) r then
      sign_node_rrsets_loop o ctx keys node rrsigs rest cs exp
    else if ctx.rrsig_drop_existing then
      sign_node_rrsets_loop o ctx keys node rrsigs rest
        (force_resign_rrset o ctx keys r rrsigs cs) exp
    else
      match resign_rrset o ctx keys r rrsigs cs exp with
      | .error e => .error e
      | .ok (cs2, exp2) => sign_node_rrsets_loop o ctx keys node rrsigs rest cs2 exp2

/-- sign_node_rrsets (zone-sign.c): update the RRSIGs of one node in the
changeset, then remove standalone RRSIGs. -/
def sign_node_rrsets (o : SignOracle) (ctx : DnssecCtx) (keys : List ZoneKey)
    (node : ZoneNode) (changeset : Changeset) (expires_at : Nat) :
    Except Err (Changeset × Nat) :=
  let rrsigs := node_rrset node KNOT_RRTYPE_RRSIG
  match sign_node_rrsets_loop o ctx keys node rrsigs node.rrsets changeset expires_at with
  | .error e => .error e
  | .ok (cs, exp) => .ok (remove_standalone_rrsigs node rrsigs cs, exp)

/-! ### Parallel tree signing -/

/-- Worker-local state (node_sign_args_t): changeset accumulator,
earliest expiration, visitation counter, error code. -/
structure WorkerSt where
  changeset : Changeset
  expires_at : Nat
  rrset_index : Nat
  errcode : Option Err
deriving DecidableEq

def worker_init : WorkerSt :=
  { changeset := csEmpty, expires_at := 0, rrset_index := 0, errcode := none }

/-- sign_node (zone-sign.c callback): skip empty and non-authoritative
nodes; claim nodes by visitation index modulo the thread count; sign the
claimed nodes into the worker-local changeset. -/
def sign_node (o : SignOracle) (ctx : DnssecCtx) (keys : List ZoneKey)
    (num_threads thread_index : Nat) (st : WorkerSt) (n : ZoneNode) : WorkerSt :=
  if n.rrsets.isEmpty then st
  else if n.nonauth then st
  else if st.rrset_index % num_threads != thread_index then
    { st with rrset_index := st.rrset_index + 1 }
  else
    match sign_node_rrsets o ctx keys n st.changeset st.expires_at with
    | .ok (cs, exp) =>
      { changeset := cs, expires_at := exp, rrset_index := st.rrset_index + 1, errcode := none }
    | .error e =>
      { st with rrset_index := st.rrset_index + 1, errcode := some e }

/-- tree_sign_thread (zone-sign.c): one worker walks the whole tree via
zone_tree_apply, which stops at the first callback error. -/
def tree_sign_thread (o : SignOracle) (ctx : DnssecCtx) (keys : List ZoneKey)
    (num_threads thread_index : Nat) : List ZoneNode → WorkerSt → WorkerSt
  | [], st => st
  | n :: rest, st =>
    let st2 := sign_node o ctx keys num_threads thread_index st n
    if st2.errcode.isSome then st2
    else tree_sign_thread o ctx keys num_threads thread_index rest st2

/-- The zone update transaction as the signing engine touches it: old
contents (possibly absent for a new zone), new contents, the pending
incremental changeset with its SOA entries, and the changesets merged
into the transaction so far. -/
structure ZoneUpdate where
  zone_contents : Option ZoneContents
  new_cont : ZoneContents
  change : Changeset
  soa_from : Option RRset
  soa_to : Option RRset
  applied : List Changeset
deriving DecidableEq

/-- Modelled from the spec: zone_update_apply_changeset merges a
changeset into the callers update transaction. -/
def zone_update_apply_changeset (u : ZoneUpdate) (cs : Changeset) : ZoneUpdate :=
  { u with applied := u.applied ++ [cs] }

/-- The result-collection loop shared by zone_tree_sign and
sign_changeset: walk the workers in index order; merge the changeset and
expiration of each successful worker; stop at the first error. -/
def merge_workers (u : ZoneUpdate) (exp : Nat) : List WorkerSt → Option Err × ZoneUpdate × Nat
  | [] => (none, u, exp)
  | w :: rest =>
    match w.errcode with
    | some e => (some e, u, exp)
    | none =>
      merge_workers (zone_update_apply_changeset u w.changeset)
        (knot_time_min exp w.expires_at) rest

/-- zone_tree_sign (zone-sign.c): run num_threads workers over the tree,
each claiming nodes by visitation index modulo num_threads, then merge
the worker changesets sequentially; the expiration starts at
now + rrsig_lifetime and is lowered by each merged worker. -/
def zone_tree_sign (o : SignOracle) (ctx : DnssecCtx) (keys : List ZoneKey)
    (tree : List ZoneNode) (num_threads : Nat) (u : ZoneUpdate) :
    Option Err × ZoneUpdate × Nat :=
  let exp0 : Nat := knot_time_add ctx.now ctx.rrsig_lifetime
  let workers := (List.range num_threads).map
    (fun i => tree_sign_thread o ctx keys num_threads i tree worker_init)
  merge_workers u exp0 workers

/-! ### Changeset signing -/

/-- Modelled from the spec: changeset_iter_all iterates every RRset of
the pending diff (additions and removals). -/
def changeset_iter_all (c : Changeset) : List RRset := c.additions ++ c.removals

/-- sign_changeset_wrap (zone-sign.c): look up the owner of a changed
RRset in the new zone contents; resign the live RRset if it should be
signed, else drop all its RRSIGs; a vanished node is a no-op. -/
def sign_changeset_wrap (o : SignOracle) (ctx : DnssecCtx) (keys : List ZoneKey)
    (zone : ZoneContents) (chg_rrset : RRset) (changeset : Changeset) (expire_at : Nat) :
    Except Err (Changeset × Nat) :=
  match zone_contents_find_node zone chg_rrset.owner with
  | none => .ok (changeset, expire_at)
  | some node =>
    let zone_rrset := node_rrset node chg_rrset.ty
    let rrsigs := node_rrset node KNOT_RRTYPE_RRSIG
    if knot_zone_sign_rr_should_be_signed (some node) zone_rrset then
      resign_rrset o ctx keys zone_rrset rrsigs changeset expire_at
    else
      .ok (remove_rrset_rrsigs chg_rrset.owner chg_rrset.ty rrsigs changeset, expire_at)

/-- sign_changeset_thread (zone-sign.c): one worker walks the diff
iterator, claiming every entry whose running index is congruent to the
thread index modulo the thread count; the index advances on every entry. -/
def sign_changeset_items (o : SignOracle) (ctx : DnssecCtx) (keys : List ZoneKey)
    (zone : ZoneContents) (num_threads thread_index : Nat) :
    List RRset → WorkerSt → WorkerSt
  | [], st => st
  | rr :: rest, st =>
    if st.errcode.isSome then st
    else
      let idx := st.rrset_index
      let st2 := { st with rrset_index := idx + 1 }
      if idx % num_threads == thread_index then
        match sign_changeset_wrap o ctx keys zone rr st2.changeset st2.expires_at with
        | .ok (cs, exp) =>
          sign_changeset_items o ctx keys zone num_threads thread_index rest
            { st2 with changeset := cs, expires_at := exp }
        | .error e =>
          sign_changeset_items o ctx keys zone num_threads thread_index rest
            { st2 with errcode := some e }
      else sign_changeset_items o ctx keys zone num_threads thread_index rest st2

/-- The synchronous SOA handling of sign_changeset: after the parallel
phase, the soa_from and soa_to entries are signed through worker 0,
updating the callers expiration directly. -/
def sign_changeset_soa (o : SignOracle) (ctx : DnssecCtx) (keys : List ZoneKey)
    (zone : ZoneContents) (u : ZoneUpdate) (w0 : WorkerSt) (expire_at : Nat) :
    Option Err × WorkerSt × Nat :=
  match u.soa_from with
  | some soaF =>
    (match sign_changeset_wrap o ctx keys zone soaF w0.changeset expire_at with
     | .error e => (some e, w0, expire_at)
     | .ok (cs1, exp1) =>
       match u.soa_to with
       | some soaT =>
         (match sign_changeset_wrap o ctx keys zone soaT cs1 exp1 with
          | .error e => (some e, { w0 with changeset := cs1 }, exp1)
          | .ok (cs2, exp2) => (none, { w0 with changeset := cs2 }, exp2))
       | none => (none, { w0 with changeset := cs1 }, exp1))
  | none =>
    match u.soa_to with
    | some soaT =>
      (match sign_changeset_wrap o ctx keys zone soaT w0.changeset expire_at with
       | .error e => (some e, w0, expire_at)
       | .ok (cs2, exp2) => (none, { w0 with changeset := cs2 }, exp2))
    | none => (none, w0, expire_at)

/-- sign_changeset (zone-sign.c): re-sign the owners touched by the
pending diff with num_threads workers, handle the SOA entries
synchronously through worker 0, then merge the worker results. -/
def sign_changeset (o : SignOracle) (ctx : DnssecCtx) (keys : List ZoneKey)
    (zone : ZoneContents) (num_threads : Nat) (u : ZoneUpdate) (expire_at : Nat) :
    Option Err × ZoneUpdate × Nat :=
  let workers := (List.range num_threads).map
    (fun i => sign_changeset_items o ctx keys zone num_threads i
      (changeset_iter_all u.change) worker_init)
  match workers with
  | [] => (none, u, expire_at)
  | w0 :: rest =>
    match sign_changeset_soa o ctx keys zone u w0 expire_at with
    | (some e, _, exp) => (some e, u, exp)
    | (none, w0b, exp) => merge_workers u exp (w0b :: rest)

/-! ### Public entry points -/

/-- knot_zone_sign (zone-sign.c): full sign of the main tree and the
NSEC3 tree; the resulting expiration is the minimum of the two. -/
def knot_zone_sign (o : SignOracle) (ctx : DnssecCtx) (keys : List ZoneKey)
    (u : ZoneUpdate) : Option Err × ZoneUpdate × Nat :=
  if ctx.signing_threads < 1 then (some .einval, u, 0)
  else
    let r1 := zone_tree_sign o ctx keys u.new_cont.nodes ctx.signing_threads u
    if r1.1.isSome then (r1.1, r1.2.1, 0)
    else
      let r2 := zone_tree_sign o ctx keys r1.2.1.new_cont.nsec3_nodes ctx.signing_threads r1.2.1
      if r2.1.isSome then (r2.1, r2.2.1, 0)
      else (none, r2.2.1, knot_time_min r1.2.2 r2.2.2)

/-- apex_rr_changed (zone-sign.c): the apex RRset of the given type
differs between old and new contents. -/
def apex_rr_changed (old_apex new_apex : ZoneNode) (ty : Nat) : Bool :=
  !knot_rrset_equal (node_rrset old_apex ty) (node_rrset new_apex ty)

/-- apex_dnssec_changed (zone-sign.c): DNSKEY or NSEC3PARAM changed at
the apex; false when the zone has no old contents. -/
def apex_dnssec_changed (u : ZoneUpdate) : Bool :=
  match u.zone_contents with
  | none => false
  | some oldc =>
    apex_rr_changed oldc.apex u.new_cont.apex KNOT_RRTYPE_DNSKEY ||
    apex_rr_changed oldc.apex u.new_cont.apex KNOT_RRTYPE_NSEC3PARAM

/-- knot_zone_sign_update (zone-sign.c): full sign when the update
changed DNSKEY or NSEC3PARAM at the apex, else incremental changeset
signing.  expire_at0 is the callers incoming expiration slot. -/
def knot_zone_sign_update (o : SignOracle) (ctx : DnssecCtx) (keys : List ZoneKey)
    (u : ZoneUpdate) (expire_at0 : Nat) : Option Err × ZoneUpdate × Nat :=
  if ctx.signing_threads < 1 then (some .einval, u, expire_at0)
  else if apex_dnssec_changed u then knot_zone_sign o ctx keys u
  else sign_changeset o ctx keys u.new_cont ctx.signing_threads u expire_at0

/-- knot_zone_sign_soa_expired (zone-sign.c): false on any NULL argument
or when the signing context cannot be allocated; otherwise true iff not
every eligible key has a valid signature on the apex SOA. -/
def knot_zone_sign_soa_expired (o : SignOracle) (zone : Option ZoneContents)
    (zone_keys : Option (List ZoneKey)) (dnssec_ctx : Option DnssecCtx)
    (ctx_alloc_ok : Bool) : Bool :=
  match zone, zone_keys, dnssec_ctx with
  | some z, some keys, some _ =>
    let soa := node_rrset z.apex KNOT_RRTYPE_SOA
    let rrsigs := node_rrset z.apex KNOT_RRTYPE_RRSIG
    if !ctx_alloc_ok then false
    else !all_signatures_exist o keys soa rrsigs
  | _, _, _ => false

/-! ### DNSKEY / CDNSKEY / CDS publication -/

/-- The DNSKEY, CDNSKEY and CDS RRsets under construction
(key_records_t), as lists of rdata wire images. -/
structure KeyRecords where
  dnskey : List (List Nat)
  cdnskey : List (List Nat)
  cds : List (List Nat)
deriving DecidableEq

def key_records_init : KeyRecords := { dnskey := [], cdnskey := [], cds := [] }

/-- knot_zone_sign_get_cdnskeys (zone-sign.c): for ROLLOVER, ALWAYS and
DOUBLE_DS first every ready key, then (ALWAYS with no ready key, or
DOUBLE_DS) the active not-ready KSKs; EMPTY and NONE select no key.  The
too-many-keys warning has no effect on the result and is omitted. -/
def knot_zone_sign_get_cdnskeys (ctx : DnssecCtx) (zone_keys : List ZoneKey) : List ZoneKey :=
  let crp := ctx.cds_cdnskey_publish
  if crp == CdsPublish.rollover || crp == CdsPublish.always || crp == CdsPublish.double_ds then
    let r := zone_keys.filter (fun k => k.is_ready)
    if (crp == CdsPublish.always && r.length == 0) || crp == CdsPublish.double_ds then
      r ++ zone_keys.filter (fun k => k.is_ksk && k.is_active && !k.is_ready)
    else r
  else []

/-- knot_zone_sign_add_dnskeys (zone-sign.c): publish every public keys
DNSKEY rdata; derive CDNSKEY and CDS from the selected keys; in EMPTY
mode append the two RFC 8078 delete sentinels. -/
def knot_zone_sign_add_dnskeys (zone_keys : List ZoneKey) (ctx : DnssecCtx)
    (add_r : KeyRecords) : KeyRecords :=
  let r1 := { add_r with
    dnskey := add_r.dnskey ++ (zone_keys.filter (fun k => k.is_public)).map (fun k => k.dnskey_rdata) }
  let kcdnskeys := knot_zone_sign_get_cdnskeys ctx zone_keys
  let r2 := kcdnskeys.foldl
    (fun r k => { r with cdnskey := r.cdnskey ++ [k.dnskey_rdata], cds := r.cds ++ [k.ds_rdata] }) r1
  if ctx.cds_cdnskey_publish == CdsPublish.empty then
    { r2 with cdnskey := r2.cdnskey ++ [[0, 0, 3, 0, 0]], cds := r2.cds ++ [[0, 0, 0, 0, 0]] }
  else r2

/-! ### Derived notions used by the statements -/

/-- A node the tree walk does not skip: it has RRsets and is
authoritative. -/
def eligibleNode (n : ZoneNode) : Bool := !n.rrsets.isEmpty && !n.nonauth

/-- The nodes of a tree that some worker processes. -/
def eligList (tree : List ZoneNode) : List ZoneNode := tree.filter eligibleNode

/-- The nodes of a tree claimed by thread i out of N when the running
visitation index starts at k: the index advances on every eligible node
and the node is claimed when index mod N = i. -/
def pickNodes (N i : Nat) : Nat → List ZoneNode → List ZoneNode
  | _, [] => []
  | k, n :: rest =>
    if eligibleNode n then
      if k % N == i then n :: pickNodes N i (k + 1) rest
      else pickNodes N i (k + 1) rest
    else pickNodes N i k rest

/-- The contribution of a single node to a signing pass: its changeset
delta and its own earliest expiration (computed from the unset value 0). -/
def nodeDelta (o : SignOracle) (ctx : DnssecCtx) (keys : List ZoneKey) (n : ZoneNode) :
    Except Err (Changeset × Nat) :=
  sign_node_rrsets o ctx keys n csEmpty 0

def nodeDeltaAdds (o : SignOracle) (ctx : DnssecCtx) (keys : List ZoneKey) (n : ZoneNode) :
    List RRset :=
  match nodeDelta o ctx keys n with
  | .ok (d, _) => d.additions
  | .error _ => []

def nodeDeltaRems (o : SignOracle) (ctx : DnssecCtx) (keys : List ZoneKey) (n : ZoneNode) :
    List RRset :=
  match nodeDelta o ctx keys n with
  | .ok (d, _) => d.removals
  | .error _ => []

def nodeDeltaExp (o : SignOracle) (ctx : DnssecCtx) (keys : List ZoneKey) (n : ZoneNode) : Nat :=
  match nodeDelta o ctx keys n with
  | .ok (_, e) => e
  | .error _ => 0

/-- Sequential composition of node contributions: first error wins,
changesets concatenate, expirations combine by knot_time_min. -/
def runDeltas (o : SignOracle) (ctx : DnssecCtx) (keys : List ZoneKey) :
    List ZoneNode → Except Err (Changeset × Nat)
  | [] => .ok (csEmpty, 0)
  | n :: rest =>
    match nodeDelta o ctx keys n with
    | .error e => .error e
    | .ok (d, e0) =>
      match runDeltas o ctx keys rest with
      | .error e => .error e
      | .ok (ds, es) => .ok (csAppend d ds, knot_time_min e0 es)

/-- Fold of knot_time_min over a list, starting from the unset value. -/
def tmFold (l : List Nat) : Nat := l.foldr knot_time_min 0

/-- The changesets of the workers preceding the first failing worker,
in worker-index order. -/
def okChangesets (ws : List WorkerSt) : List Changeset :=
  (ws.takeWhile (fun w => w.errcode.isNone)).map (fun w => w.changeset)

/-- The error of the first failing worker, in worker-index order. -/
def firstWorkerErr : List WorkerSt → Option Err
  | [] => none
  | w :: rest =>
    match w.errcode with
    | some e => some e
    | none => firstWorkerErr rest

/-- Modelled from the spec: applying the per-node part of a signing
changeset to its node.  Signing changesets only touch the RRSIG RRset of
the node: the scheduled removals disappear from it, the scheduled
additions join it, every other RRset is untouched. -/
def applyNodeCS (n : ZoneNode) (c : Changeset) : ZoneNode :=
  let rem := csRemRdatas c
  let newSigs :=
    ((node_rrset n KNOT_RRTYPE_RRSIG).rdatas.filter (fun rd => decide (rd ∉ rem))) ++
    csAddRdatas c
  { n with rrsets :=
      (n.rrsets.filter (fun r => r.ty != KNOT_RRTYPE_RRSIG)) ++
      (if newSigs.isEmpty then []
       else [{ owner := n.owner, ty := KNOT_RRTYPE_RRSIG, rdatas := newSigs }]) }

/-- Modelled from the spec: the tree after a full signing pass — every
processed node with a successful contribution absorbs its delta. -/
def treeAfterPass (o : SignOracle) (ctx : DnssecCtx) (keys : List ZoneKey)
    (tree : List ZoneNode) : List ZoneNode :=
  tree.map (fun n =>
    if eligibleNode n then
      match nodeDelta o ctx keys n with
      | .ok (d, _) => applyNodeCS n d
      | .error _ => n
    else n)

/-- Modelled from the spec: the zone contents after a full signing pass. -/
def contentsAfterPass (o : SignOracle) (ctx : DnssecCtx) (keys : List ZoneKey)
    (z : ZoneContents) : ZoneContents :=
  { z with
    nodes := treeAfterPass o ctx keys z.nodes,
    nsec3_nodes := treeAfterPass o ctx keys z.nsec3_nodes }

/-- The RRsets of a node that a signing pass resigns. -/
def coveredRRsets (n : ZoneNode) : List RRset :=
  n.rrsets.filter (fun r =>
    !(r.ty == KNOT_RRTYPE_RRSIG) && knot_zone_sign_rr_should_be_signed (some n) r)

/-- Some active or post-active key with the keytag of the entry verifies
it. -/
def anyKeyValidates (o : SignOracle) (keys : List ZoneKey) (covered : RRset) (rd : Rdata) :
    Bool :=
  keys.any (fun k =>
    (k.is_active || k.is_post_active) && k.keytag == rd.keytag &&
    decide (o.check covered rd k = SigCheck.ok))

/-- The fresh signatures a pass adds for one covered RRset. -/
def addsForRRset (o : SignOracle) (keys : List ZoneKey) (r sigs : RRset) : List Rdata :=
  (keys.filter (fun k =>
      knot_zone_sign_use_key k r && !valid_signature_exists o r sigs k)).map
    (fun k => o.sign r k)

/-- The expired or orphaned RRSIG rdata a pass removes for one covered
RRset: the entries covering its type not validated by any active or
post-active key with matching keytag. -/
def expiredRemovals (o : SignOracle) (keys : List ZoneKey) (covered rrsigs : RRset) :
    List Rdata :=
  (knot_synth_rrsig covered.ty rrsigs.rdatas).filter
    (fun rd => !anyKeyValidates o keys covered rd)

/-- All RRSIG rdata a pass removes at one node (expired or orphaned
signatures followed by standalone signatures). -/
def nodeRemovalRdatas (o : SignOracle) (keys : List ZoneKey) (n : ZoneNode) : List Rdata :=
  let sigs := node_rrset n KNOT_RRTYPE_RRSIG
  ((coveredRRsets n).flatMap (fun r => expiredRemovals o keys r sigs)) ++
  sigs.rdatas.filter (fun rd => !node_rrtype_exists n rd.type_covered)

/-- All RRSIG rdata a pass adds at one node. -/
def nodeAdditionRdatas (o : SignOracle) (keys : List ZoneKey) (n : ZoneNode) : List Rdata :=
  let sigs := node_rrset n KNOT_RRTYPE_RRSIG
  (coveredRRsets n).flatMap (fun r => addsForRRset o keys r sigs)

/-! ### Specification rendering of remove_expired_rrsigs (claim C3) -/

/-- Specification rendering of the per-entry decision of
remove_expired_rrsigs, following the claim wording: find the active or
post-active key whose keytag matches the entry; keep the entry when that
key verifies it, abort on a hard verification error, schedule the entry
for removal when no such key exists or the signature is invalid. -/
def entry_decision_spec (o : SignOracle) (keys : List ZoneKey) (covered : RRset)
    (rd : Rdata) : EntryOutcome :=
  match keys.find? (fun k => (k.is_active || k.is_post_active) && k.keytag == rd.keytag) with
  | none => .drop
  | some k =>
    match o.check covered rd k with
    | .ok => .keep
    | .invalid => .drop
    | .hard e => .abort e

/-- Specification rendering of the entry loop of remove_expired_rrsigs:
kept entries lower the running earliest expiration, dropped entries are
collected for removal, a hard error aborts the whole operation. -/
def remove_expired_entries_spec (o : SignOracle) (keys : List ZoneKey) (covered : RRset) :
    List Rdata → List Rdata → Nat → Except Err (List Rdata × Nat)
  | [], to_remove, exp => .ok (to_remove, exp)
  | rd :: rest, to_remove, exp =>
    match entry_decision_spec o keys covered rd with
    | .keep =>
      remove_expired_entries_spec o keys covered rest to_remove
        (knot_time_min rd.expiration exp)
    | .drop =>
      remove_expired_entries_spec o keys covered rest (to_remove ++ [rd]) exp
    | .abort e => .error e

/-- Specification rendering of remove_expired_rrsigs as a whole. -/
def remove_expired_rrsigs_spec (o : SignOracle) (keys : List ZoneKey) (covered rrsigs : RRset)
    (changeset : Changeset) (expires_at : Nat) : Except Err (Changeset × Nat) :=
  if knot_rrset_empty rrsigs then .ok (changeset, expires_at)
  else
    let synth := knot_synth_rrsig covered.ty rrsigs.rdatas
    match remove_expired_entries_spec o keys covered synth [] expires_at with
    | .error e => .error e
    | .ok (to_remove, exp) =>
      if to_remove.isEmpty then .ok (changeset, exp)
      else .ok (changeset_add_removal changeset
                  { owner := rrsigs.owner, ty := KNOT_RRTYPE_RRSIG, rdatas := to_remove }, exp)

/-! ### Concrete fixtures for the closed statements -/

/-- A well-behaved oracle: the signature for (covered, key) is the rdata
with the keytag of the key, the covered type, expiration 1000 and
payload 77; check accepts exactly these. -/
def oracleW : SignOracle :=
  { check := fun c rd k =>
      if rd = { keytag := k.keytag, type_covered := c.ty, expiration := 1000, payload := 77 }
      then SigCheck.ok else SigCheck.invalid,
    sign := fun c k =>
      { keytag := k.keytag, type_covered := c.ty, expiration := 1000, payload := 77 } }

/-- An oracle whose verification hard-fails on rdata with payload 666
and accepts everything else. -/
def oracleCex : SignOracle :=
  { check := fun _ rd _ =>
      if rd.payload == 666 then SigCheck.hard (Err.ecrypto 7) else SigCheck.ok,
    sign := fun c k =>
      { keytag := k.keytag, type_covered := c.ty, expiration := 1000, payload := 77 } }

def zskKey : ZoneKey :=
  { keytag := 1, dname := 0, is_zsk := true, is_ksk := false, is_active := true,
    is_post_active := false, is_ready := false, is_public := true,
    dnskey_rdata := [1], ds_rdata := [2] }

def kskKey : ZoneKey :=
  { keytag := 2, dname := 0, is_zsk := false, is_ksk := true, is_active := true,
    is_post_active := false, is_ready := false, is_public := true,
    dnskey_rdata := [3], ds_rdata := [4] }

def apexNode : ZoneNode :=
  { owner := 0,
    rrsets := [{ owner := 0, ty := KNOT_RRTYPE_SOA, rdatas := [⟨0, 0, 0, 9⟩] }],
    nonauth := false, deleg := false }

def nodeA10 : ZoneNode :=
  { owner := 10,
    rrsets := [{ owner := 10, ty := KNOT_RRTYPE_A, rdatas := [⟨0, 0, 0, 5⟩] }],
    nonauth := false, deleg := false }

def nodeA11 : ZoneNode :=
  { owner := 11,
    rrsets := [{ owner := 11, ty := KNOT_RRTYPE_A, rdatas := [⟨0, 0, 0, 6⟩] },
               { owner := 11, ty := KNOT_RRTYPE_RRSIG,
                 rdatas := [⟨1, KNOT_RRTYPE_A, 500, 666⟩] }],
    nonauth := false, deleg := false }

def contents1 : ZoneContents :=
  { apex := apexNode, nodes := [nodeA10, nodeA11], nsec3_nodes := [] }

def ctxStd : DnssecCtx :=
  { now := 100, rrsig_lifetime := 1000, signing_threads := 2,
    rrsig_drop_existing := false, cds_cdnskey_publish := CdsPublish.off,
    offline_ksk := false, offline_rrsig := none, zone_dname := 0 }

def update1 : ZoneUpdate :=
  { zone_contents := some contents1, new_cont := contents1, change := csEmpty,
    soa_from := none, soa_to := none, applied := [] }

def ctxEmptyMode : DnssecCtx := { ctxStd with cds_cdnskey_publish := CdsPublish.empty }

/-! ### Theorems -/

theorem merge_workers_prefixed (ws : List WorkerSt) : ∀ (u : ZoneUpdate) (exp : Nat),
    (merge_workers u exp ws).1 = firstWorkerErr ws ∧
    (merge_workers u exp ws).2.1.applied = u.applied ++ okChangesets ws := by
  induction ws with
  | nil => intro u exp; simp [merge_workers, firstWorkerErr, okChangesets]
  | cons w rest ih =>
    intro u exp
    cases hw : w.errcode with
    | some e =>
      simp [merge_workers, firstWorkerErr, okChangesets, hw]
    | none =>
      have h2 := ih (zone_update_apply_changeset u w.changeset) (knot_time_min exp w.expires_at)
      simp only [merge_workers, firstWorkerErr, okChangesets, hw, List.takeWhile_cons,
        Option.isNone_none, List.map_cons] at h2 ⊢
      refine ⟨h2.1, ?_⟩
      rw [h2.2]
      simp [zone_update_apply_changeset]

/-- C1 (counterexample): a full pass on a two-node tree with two workers
in which worker 1 hits a hard verification error while worker 0 succeeds
leaves the update with exactly one worker changeset (a nonempty one)
merged: the pass neither merged every worker changeset nor left the
update unchanged. -/
theorem C1_counterexample :
    (knot_zone_sign oracleCex ctxStd [zskKey] update1).1.isSome = true ∧
    (knot_zone_sign oracleCex ctxStd [zskKey] update1).2.1.applied ≠ update1.applied ∧
    (knot_zone_sign oracleCex ctxStd [zskKey] update1).2.1.applied.length = 1 ∧
    ((knot_zone_sign oracleCex ctxStd [zskKey] update1).2.1.applied.headD csEmpty).additions
      ≠ [] := by
  decide

/-- C1 (amended): a signing pass over a zone tree merges exactly the
changesets of the workers preceding the first failing worker, in worker
index order: on success every worker changeset is merged, and the first
error stops the merge, leaving the earlier worker changesets already
applied to the update. -/
theorem C1_prefix_merge (o : SignOracle) (ctx : DnssecCtx) (keys : List ZoneKey)
    (tree : List ZoneNode) (N : Nat) (u : ZoneUpdate) :
    (zone_tree_sign o ctx keys tree N u).1 =
      firstWorkerErr
        ((List.range N).map (fun i => tree_sign_thread o ctx keys N i tree worker_init)) ∧
    (zone_tree_sign o ctx keys tree N u).2.1.applied =
      u.applied ++ okChangesets
        ((List.range N).map (fun i => tree_sign_thread o ctx keys N i tree worker_init)) := by
  unfold zone_tree_sign
  exact merge_workers_prefixed _ u _

/-- C4: knot_zone_sign_use_key excludes keys that are neither active nor
post-active; away from the apex of the key it follows the ZSK flag; at
the apex DNSKEY, CDS and CDNSKEY follow the KSK flag (the sign-CDS-by-ZSK
variant being hardcoded off) and every other type follows the ZSK flag. -/
theorem C4_use_key_rules (key : ZoneKey) (covered : RRset) :
    (key.is_active = false → key.is_post_active = false →
      knot_zone_sign_use_key key covered = false) ∧
    (key.is_active = true ∨ key.is_post_active = true →
      ((covered.owner ≠ key.dname → knot_zone_sign_use_key key covered = key.is_zsk) ∧
       (covered.owner = key.dname →
         ((covered.ty = KNOT_RRTYPE_DNSKEY → knot_zone_sign_use_key key covered = key.is_ksk) ∧
          ((covered.ty = KNOT_RRTYPE_CDS ∨ covered.ty = KNOT_RRTYPE_CDNSKEY) →
            knot_zone_sign_use_key key covered = key.is_ksk) ∧
          (covered.ty ≠ KNOT_RRTYPE_DNSKEY → covered.ty ≠ KNOT_RRTYPE_CDS →
            covered.ty ≠ KNOT_RRTYPE_CDNSKEY →
            knot_zone_sign_use_key key covered = key.is_zsk))))) := by
  constructor
  · intro h1 h2
    simp [knot_zone_sign_use_key, h1, h2]
  · intro hap
    have hcond : (!key.is_active && !key.is_post_active) = false := by
      rcases hap with h | h <;> simp [h]
    constructor
    · intro hne
      simp [knot_zone_sign_use_key, hcond, beq_eq_false_iff_ne.mpr hne]
    · intro heq
      refine ⟨?_, ?_, ?_⟩
      · intro hty
        simp [knot_zone_sign_use_key, hcond, heq, hty]
      · intro hty
        rcases hty with h | h <;>
          simp [knot_zone_sign_use_key, hcond, heq, h, KNOT_RRTYPE_DNSKEY, KNOT_RRTYPE_CDS,
            KNOT_RRTYPE_CDNSKEY]
      · intro h1 h2 h3
        simp [knot_zone_sign_use_key, hcond, heq, beq_eq_false_iff_ne.mpr h1,
          beq_eq_false_iff_ne.mpr h2, beq_eq_false_iff_ne.mpr h3]

/-- C4 (witness): the active ZSK fixture key applied to a non-apex
RRset follows the ZSK flag. -/
theorem C4_witness :
    knot_zone_sign_use_key zskKey { owner := 5, ty := KNOT_RRTYPE_A, rdatas := [] } =
      zskKey.is_zsk :=
  ((C4_use_key_rules zskKey { owner := 5, ty := KNOT_RRTYPE_A, rdatas := [] }).2
    (Or.inl rfl)).1 (by decide)

/-- C7: knot_zone_sign_rr_should_be_signed is false for every RRSIG
RRset; at a delegation node only NSEC and DS RRsets may be signed; and a
non-NULL non-delegation node with a non-empty non-RRSIG RRset is signed. -/
theorem C7_should_be_signed_rules (node : ZoneNode) (rrset : RRset) :
    (∀ n2 : Option ZoneNode, rrset.ty = KNOT_RRTYPE_RRSIG →
      knot_zone_sign_rr_should_be_signed n2 rrset = false) ∧
    (node.deleg = true →
      knot_zone_sign_rr_should_be_signed (some node) rrset = true →
      rrset.ty = KNOT_RRTYPE_NSEC ∨ rrset.ty = KNOT_RRTYPE_DS) ∧
    (node.deleg = false → rrset.rdatas ≠ [] → rrset.ty ≠ KNOT_RRTYPE_RRSIG →
      knot_zone_sign_rr_should_be_signed (some node) rrset = true) := by
  refine ⟨?_, ?_, ?_⟩
  · intro n2 h
    cases n2 with
    | none => rfl
    | some n => simp [knot_zone_sign_rr_should_be_signed, h]
  · intro hdeleg htrue
    by_contra hne
    push_neg at hne
    obtain ⟨h1, h2⟩ := hne
    simp [knot_zone_sign_rr_should_be_signed, hdeleg, beq_eq_false_iff_ne.mpr h1,
      beq_eq_false_iff_ne.mpr h2] at htrue
  · intro hdeleg hne hty
    have hempty : knot_rrset_empty rrset = false := by
      simp [knot_rrset_empty, hne]
    simp [knot_zone_sign_rr_should_be_signed, hdeleg, hempty, beq_eq_false_iff_ne.mpr hty]

/-- C7 (witness): a non-empty A RRset at the non-delegation fixture node
should be signed. -/
theorem C7_witness :
    knot_zone_sign_rr_should_be_signed (some nodeA10)
      { owner := 10, ty := KNOT_RRTYPE_A, rdatas := [⟨0, 0, 0, 5⟩] } = true :=
  (C7_should_be_signed_rules nodeA10
    { owner := 10, ty := KNOT_RRTYPE_A, rdatas := [⟨0, 0, 0, 5⟩] }).2.2 rfl (by decide)
    (by decide)

/-- C9: in EMPTY publication mode knot_zone_sign_add_dnskeys publishes,
whatever the key set, exactly the 5-byte sentinel CDNSKEY 0,0,3,0,0 and
the 5-byte sentinel CDS 0,0,0,0,0, and no key-derived CDS or CDNSKEY. -/
theorem C9_cds_empty_sentinel (zone_keys : List ZoneKey) (ctx : DnssecCtx)
    (h : ctx.cds_cdnskey_publish = CdsPublish.empty) :
    (knot_zone_sign_add_dnskeys zone_keys ctx key_records_init).cdnskey = [[0, 0, 3, 0, 0]] ∧
    (knot_zone_sign_add_dnskeys zone_keys ctx key_records_init).cds = [[0, 0, 0, 0, 0]] := by
  simp [knot_zone_sign_add_dnskeys, knot_zone_sign_get_cdnskeys, key_records_init, h]

/-- C9 (witness): EMPTY mode with the two fixture keys yields exactly
the sentinels. -/
theorem C9_witness :
    (knot_zone_sign_add_dnskeys [zskKey, kskKey] ctxEmptyMode key_records_init).cdnskey
      = [[0, 0, 3, 0, 0]] ∧
    (knot_zone_sign_add_dnskeys [zskKey, kskKey] ctxEmptyMode key_records_init).cds
      = [[0, 0, 0, 0, 0]] :=
  C9_cds_empty_sentinel [zskKey, kskKey] ctxEmptyMode rfl

/-- C10: knot_zone_sign_soa_expired is false whenever an argument is
NULL or the signing context cannot be allocated, and otherwise is true
exactly when some key eligible for the apex SOA RRset lacks a valid
signature in the apex RRSIG set. -/
theorem C10_soa_expired_characterization :
    (∀ (o : SignOracle) ks c b, knot_zone_sign_soa_expired o none ks c b = false) ∧
    (∀ (o : SignOracle) z c b, knot_zone_sign_soa_expired o z none c b = false) ∧
    (∀ (o : SignOracle) z ks b, knot_zone_sign_soa_expired o z ks none b = false) ∧
    (∀ (o : SignOracle) z ks c,
      knot_zone_sign_soa_expired o (some z) (some ks) (some c) false = false) ∧
    (∀ (o : SignOracle) z ks c,
      knot_zone_sign_soa_expired o (some z) (some ks) (some c) true = true ↔
      ∃ k ∈ ks, knot_zone_sign_use_key k (node_rrset z.apex KNOT_RRTYPE_SOA) = true ∧
        valid_signature_exists o (node_rrset z.apex KNOT_RRTYPE_SOA)
          (node_rrset z.apex KNOT_RRTYPE_RRSIG) k = false) := by
  refine ⟨?_, ?_, ?_, ?_, ?_⟩
  · intro o ks c b; cases ks <;> cases c <;> rfl
  · intro o z c b; cases z <;> cases c <;> rfl
  · intro o z ks b; cases z <;> cases ks <;> rfl
  · intro o z ks c; rfl
  · intro o z ks c
    simp [knot_zone_sign_soa_expired, all_signatures_exist, List.all_eq_true]

/-! ### knot_time lemmas -/

theorem knot_time_min_zero_left (b : Nat) : knot_time_min 0 b = b := by
  simp [knot_time_min]

theorem knot_time_min_zero_right (a : Nat) : knot_time_min a 0 = a := by
  unfold knot_time_min
  split
  · omega
  · simp

theorem knot_time_min_comm (a b : Nat) : knot_time_min a b = knot_time_min b a := by
  by_cases ha : a = 0 <;> by_cases hb : b = 0 <;>
    simp [knot_time_min, ha, hb, Nat.min_comm]

theorem knot_time_min_assoc (a b c : Nat) :
    knot_time_min (knot_time_min a b) c = knot_time_min a (knot_time_min b c) := by
  by_cases ha : a = 0 <;> by_cases hb : b = 0 <;> by_cases hc : c = 0 <;>
    simp [knot_time_min, ha, hb, hc, Nat.min_eq_zero_iff, Nat.min_assoc]

theorem tmin_foldl_pos_le (l : List Nat) : ∀ e : Nat, 0 < e →
    0 < List.foldl knot_time_min e l ∧ List.foldl knot_time_min e l ≤ e := by
  induction l with
  | nil => intro e he; exact ⟨he, le_refl e⟩
  | cons x rest ih =>
    intro e he
    have hx : 0 < knot_time_min e x ∧ knot_time_min e x ≤ e := by
      unfold knot_time_min
      split
      · omega
      · split
        · exact ⟨he, le_refl e⟩
        · exact ⟨by omega, Nat.min_le_left _ _⟩
    obtain ⟨h1, h2⟩ := ih (knot_time_min e x) hx.1
    rw [List.foldl_cons]
    exact ⟨h1, le_trans h2 hx.2⟩

/-! ### Merge-loop lemmas -/

theorem firstWorkerErr_eq_none (ws : List WorkerSt) :
    firstWorkerErr ws = none ↔ ∀ w ∈ ws, w.errcode = none := by
  induction ws with
  | nil => simp [firstWorkerErr]
  | cons w rest ih =>
    cases hw : w.errcode <;> simp [firstWorkerErr, hw, ih]

theorem merge_workers_indep (ws : List WorkerSt) : ∀ (u u2 : ZoneUpdate) (exp : Nat),
    (merge_workers u exp ws).1 = (merge_workers u2 exp ws).1 ∧
    (merge_workers u exp ws).2.2 = (merge_workers u2 exp ws).2.2 := by
  induction ws with
  | nil => intro u u2 exp; simp [merge_workers]
  | cons w rest ih =>
    intro u u2 exp
    cases hw : w.errcode with
    | some e => simp [merge_workers, hw]
    | none =>
      simp only [merge_workers, hw]
      exact ih _ _ _

theorem merge_workers_new_cont (ws : List WorkerSt) : ∀ (u : ZoneUpdate) (exp : Nat),
    (merge_workers u exp ws).2.1.new_cont = u.new_cont := by
  induction ws with
  | nil => intro u exp; simp [merge_workers]
  | cons w rest ih =>
    intro u exp
    cases hw : w.errcode with
    | some e => simp [merge_workers, hw]
    | none =>
      simp only [merge_workers, hw]
      exact ih _ _

theorem merge_workers_exp_allok (ws : List WorkerSt) (h : ∀ w ∈ ws, w.errcode = none) :
    ∀ (u : ZoneUpdate) (exp : Nat),
    (merge_workers u exp ws).2.2 =
      List.foldl (fun a w => knot_time_min a w.expires_at) exp ws := by
  induction ws with
  | nil => intro u exp; simp [merge_workers]
  | cons w rest ih =>
    intro u exp
    have hw : w.errcode = none := h w (by simp)
    simp only [merge_workers, hw, List.foldl_cons]
    exact ih (fun w2 hw2 => h w2 (by simp [hw2])) _ _

theorem zone_tree_sign_eq (o : SignOracle) (ctx : DnssecCtx) (keys : List ZoneKey)
    (tree : List ZoneNode) (N : Nat) (u : ZoneUpdate) :
    zone_tree_sign o ctx keys tree N u =
      merge_workers u (knot_time_add ctx.now ctx.rrsig_lifetime)
        ((List.range N).map (fun i => tree_sign_thread o ctx keys N i tree worker_init)) :=
  rfl

theorem zone_tree_sign_indep (o : SignOracle) (ctx : DnssecCtx) (keys : List ZoneKey)
    (tree : List ZoneNode) (N : Nat) (u u2 : ZoneUpdate) :
    (zone_tree_sign o ctx keys tree N u).1 = (zone_tree_sign o ctx keys tree N u2).1 ∧
    (zone_tree_sign o ctx keys tree N u).2.2 = (zone_tree_sign o ctx keys tree N u2).2.2 := by
  rw [zone_tree_sign_eq, zone_tree_sign_eq]
  exact merge_workers_indep _ _ _ _

/-- C2: with valid arguments and existing old contents,
knot_zone_sign_update takes the full path exactly when the apex DNSKEY
or NSEC3PARAM RRset differs between old and new contents, otherwise it
re-signs the pending changeset via sign_changeset; the full path signs
both trees and returns the minimum of their expirations. -/
theorem C2_full_iff_apex_changed (o : SignOracle) (ctx : DnssecCtx) (keys : List ZoneKey)
    (u : ZoneUpdate) (e0 : Nat) (oldc : ZoneContents)
    (hthreads : 1 ≤ ctx.signing_threads) (hold : u.zone_contents = some oldc) :
    (apex_dnssec_changed u = true ↔
      (knot_rrset_equal (node_rrset oldc.apex KNOT_RRTYPE_DNSKEY)
          (node_rrset u.new_cont.apex KNOT_RRTYPE_DNSKEY) = false ∨
       knot_rrset_equal (node_rrset oldc.apex KNOT_RRTYPE_NSEC3PARAM)
          (node_rrset u.new_cont.apex KNOT_RRTYPE_NSEC3PARAM) = false)) ∧
    knot_zone_sign_update o ctx keys u e0 =
      (if apex_dnssec_changed u then knot_zone_sign o ctx keys u
       else sign_changeset o ctx keys u.new_cont ctx.signing_threads u e0) ∧
    ((knot_zone_sign o ctx keys u).1 = none →
      (knot_zone_sign o ctx keys u).2.2 =
        knot_time_min
          (zone_tree_sign o ctx keys u.new_cont.nodes ctx.signing_threads u).2.2
          (zone_tree_sign o ctx keys u.new_cont.nsec3_nodes ctx.signing_threads u).2.2) := by
  have hth : ¬ ctx.signing_threads < 1 := by omega
  refine ⟨?_, ?_, ?_⟩
  · simp [apex_dnssec_changed, hold, apex_rr_changed]
  · rw [knot_zone_sign_update, if_neg hth]
  · intro hok
    simp only [knot_zone_sign, if_neg hth] at hok ⊢
    rcases h1 : zone_tree_sign o ctx keys u.new_cont.nodes ctx.signing_threads u with
      ⟨r1, u1, e1⟩
    rw [h1] at hok
    cases r1 with
    | some e => simp at hok
    | none =>
      have hcont : u1.new_cont = u.new_cont := by
        have := merge_workers_new_cont
          ((List.range ctx.signing_threads).map
            (fun i => tree_sign_thread o ctx keys ctx.signing_threads i u.new_cont.nodes
              worker_init)) u (knot_time_add ctx.now ctx.rrsig_lifetime)
        rw [zone_tree_sign_eq] at h1
        rw [h1] at this
        exact this
      rcases h2 : zone_tree_sign o ctx keys u1.new_cont.nsec3_nodes ctx.signing_threads u1 with
        ⟨r2, u2, e2⟩
      rw [h2] at hok
      cases r2 with
      | some e => simp at hok
      | none =>
        have hind := zone_tree_sign_indep o ctx keys u.new_cont.nsec3_nodes
          ctx.signing_threads u u1
        rw [← hcont] at hind
        rw [h2] at hind
        rw [← hcont]
        simp [hind.2]

/-- C2 (witness): an update with identical old and new contents and two
signing threads takes the incremental path. -/
theorem C2_witness :
    (apex_dnssec_changed update1 = true ↔
      (knot_rrset_equal (node_rrset contents1.apex KNOT_RRTYPE_DNSKEY)
          (node_rrset update1.new_cont.apex KNOT_RRTYPE_DNSKEY) = false ∨
       knot_rrset_equal (node_rrset contents1.apex KNOT_RRTYPE_NSEC3PARAM)
          (node_rrset update1.new_cont.apex KNOT_RRTYPE_NSEC3PARAM) = false)) ∧
    knot_zone_sign_update oracleW ctxStd [zskKey] update1 0 =
      (if apex_dnssec_changed update1 then knot_zone_sign oracleW ctxStd [zskKey] update1
       else sign_changeset oracleW ctxStd [zskKey] update1.new_cont ctxStd.signing_threads
         update1 0) ∧
    ((knot_zone_sign oracleW ctxStd [zskKey] update1).1 = none →
      (knot_zone_sign oracleW ctxStd [zskKey] update1).2.2 =
        knot_time_min
          (zone_tree_sign oracleW ctxStd [zskKey] update1.new_cont.nodes
            ctxStd.signing_threads update1).2.2
          (zone_tree_sign oracleW ctxStd [zskKey] update1.new_cont.nsec3_nodes
            ctxStd.signing_threads update1).2.2) :=
  C2_full_iff_apex_changed oracleW ctxStd [zskKey] update1 0 contents1 (by decide) rfl

/-- C8: after a successful full pass the returned expiration is the
minimum of the two tree expirations, never unset and never above
now + rrsig_lifetime; and each tree expiration is the fold of
knot_time_min over the worker expirations starting from the clamp
now + rrsig_lifetime. -/
theorem C8_expire_clamped (o : SignOracle) (ctx : DnssecCtx) (keys : List ZoneKey)
    (u : ZoneUpdate) (hthreads : 1 ≤ ctx.signing_threads) (hnow : 0 < ctx.now) :
    ((knot_zone_sign o ctx keys u).1 = none →
      ((knot_zone_sign o ctx keys u).2.2 =
        knot_time_min
          (zone_tree_sign o ctx keys u.new_cont.nodes ctx.signing_threads u).2.2
          (zone_tree_sign o ctx keys u.new_cont.nsec3_nodes ctx.signing_threads u).2.2 ∧
       0 < (knot_zone_sign o ctx keys u).2.2 ∧
       (knot_zone_sign o ctx keys u).2.2 ≤ ctx.now + ctx.rrsig_lifetime)) ∧
    (∀ (tree : List ZoneNode) (u2 : ZoneUpdate),
      (∀ w ∈ (List.range ctx.signing_threads).map
          (fun i => tree_sign_thread o ctx keys ctx.signing_threads i tree worker_init),
        w.errcode = none) →
      (zone_tree_sign o ctx keys tree ctx.signing_threads u2).2.2 =
        List.foldl (fun a w => knot_time_min a w.expires_at)
          (knot_time_add ctx.now ctx.rrsig_lifetime)
          ((List.range ctx.signing_threads).map
            (fun i => tree_sign_thread o ctx keys ctx.signing_threads i tree worker_init))) := by
  have hth : ¬ ctx.signing_threads < 1 := by omega
  have hadd : knot_time_add ctx.now ctx.rrsig_lifetime = ctx.now + ctx.rrsig_lifetime := by
    unfold knot_time_add
    rw [if_neg (by omega)]
  have hbound : ∀ (tree : List ZoneNode) (u2 : ZoneUpdate),
      (zone_tree_sign o ctx keys tree ctx.signing_threads u2).1 = none →
      0 < (zone_tree_sign o ctx keys tree ctx.signing_threads u2).2.2 ∧
      (zone_tree_sign o ctx keys tree ctx.signing_threads u2).2.2 ≤
        ctx.now + ctx.rrsig_lifetime := by
    intro tree u2 hok
    rw [zone_tree_sign_eq] at hok ⊢
    set ws := (List.range ctx.signing_threads).map
      (fun i => tree_sign_thread o ctx keys ctx.signing_threads i tree worker_init) with hws
    have hall : ∀ w ∈ ws, w.errcode = none := by
      rw [← firstWorkerErr_eq_none]
      rw [← (merge_workers_prefixed ws u2 (knot_time_add ctx.now ctx.rrsig_lifetime)).1]
      exact hok
    rw [merge_workers_exp_allok ws hall u2 _]
    rw [← List.foldl_map (fun w : WorkerSt => w.expires_at) knot_time_min]
    rw [hadd]
    exact tmin_foldl_pos_le _ _ (by omega)
  have hminle : ∀ a b c : Nat, 0 < a ∧ a ≤ c → 0 < b ∧ b ≤ c →
      0 < knot_time_min a b ∧ knot_time_min a b ≤ c := by
    intro a b c ha hb
    unfold knot_time_min
    split
    · exact hb
    · split
      · exact ha
      · exact ⟨lt_min ha.1 hb.1, le_trans (Nat.min_le_left _ _) ha.2⟩
  constructor
  · intro hok
    simp only [knot_zone_sign, if_neg hth] at hok ⊢
    rcases h1 : zone_tree_sign o ctx keys u.new_cont.nodes ctx.signing_threads u with
      ⟨r1, u1, e1⟩
    rw [h1] at hok
    cases r1 with
    | some e => simp at hok
    | none =>
      have hcont : u1.new_cont = u.new_cont := by
        have := merge_workers_new_cont
          ((List.range ctx.signing_threads).map
            (fun i => tree_sign_thread o ctx keys ctx.signing_threads i u.new_cont.nodes
              worker_init)) u (knot_time_add ctx.now ctx.rrsig_lifetime)
        rw [zone_tree_sign_eq] at h1
        rw [h1] at this
        exact this
      rcases h2 : zone_tree_sign o ctx keys u1.new_cont.nsec3_nodes ctx.signing_threads u1 with
        ⟨r2, u2, e2⟩
      rw [h2] at hok
      cases r2 with
      | some e => simp at hok
      | none =>
        have hind := zone_tree_sign_indep o ctx keys u.new_cont.nsec3_nodes
          ctx.signing_threads u u1
        rw [← hcont] at hind
        rw [h2] at hind
        have hb1 := hbound u.new_cont.nodes u (by rw [h1])
        rw [h1] at hb1
        have hb2 := hbound u.new_cont.nsec3_nodes u (by rw [← hcont, hind.1])
        rw [← hcont, hind.2] at hb2
        have hb1b : 0 < e1 ∧ e1 ≤ ctx.now + ctx.rrsig_lifetime := hb1
        have hb2b : 0 < e2 ∧ e2 ≤ ctx.now + ctx.rrsig_lifetime := hb2
        have hfin := hminle e1 e2 (ctx.now + ctx.rrsig_lifetime) hb1b hb2b
        refine ⟨?_, ?_, ?_⟩
        · rw [← hcont]
          simp [hind.2]
        · simpa using hfin.1
        · simpa using hfin.2
  · intro tree u2 hall
    rw [zone_tree_sign_eq]
    exact merge_workers_exp_allok _ hall u2 _

/-! ### Claim C3: remove_expired_rrsigs -/

theorem remove_expired_key_scan_all_invalid (o : SignOracle) (covered : RRset) (rd : Rdata)
    (l : List ZoneKey)
    (h : ∀ k ∈ l, (k.is_active || k.is_post_active) = true → k.keytag = rd.keytag →
      o.check covered rd k = SigCheck.invalid) :
    remove_expired_key_scan o covered rd l = EntryOutcome.drop := by
  induction l with
  | nil => rfl
  | cons k rest ih =>
    have ih2 := ih (fun k2 hk2 ha hk => h k2 (List.mem_cons_of_mem _ hk2) ha hk)
    by_cases hk : k.keytag = rd.keytag
    · cases hact : k.is_active with
      | true =>
        have hc := h k (by simp) (by simp [hact]) hk
        simp [remove_expired_key_scan, hact, hk, hc, ih2]
      | false =>
        cases hpost : k.is_post_active with
        | true =>
          have hc := h k (by simp) (by simp [hpost]) hk
          simp [remove_expired_key_scan, hact, hpost, hk, hc, ih2]
        | false =>
          simp [remove_expired_key_scan, hact, hpost, ih2]
    · simp [remove_expired_key_scan, hk, ih2]

theorem remove_expired_key_scan_eq_spec (o : SignOracle) (covered : RRset) (rd : Rdata)
    (keys : List ZoneKey)
    (huniq : ∀ k1 ∈ keys, ∀ k2 ∈ keys,
      (k1.is_active || k1.is_post_active) = true →
      (k2.is_active || k2.is_post_active) = true →
      k1.keytag = k2.keytag → k1 = k2) :
    remove_expired_key_scan o covered rd keys = entry_decision_spec o keys covered rd := by
  induction keys with
  | nil => rfl
  | cons k rest ih =>
    have ih2 := ih (fun k1 h1 k2 h2 => huniq k1 (List.mem_cons_of_mem _ h1) k2
      (List.mem_cons_of_mem _ h2))
    by_cases hk : k.keytag = rd.keytag
    · by_cases ha : (k.is_active || k.is_post_active) = true
      · have hdrop : o.check covered rd k = SigCheck.invalid →
            remove_expired_key_scan o covered rd rest = EntryOutcome.drop := by
          intro hc
          apply remove_expired_key_scan_all_invalid
          intro k2 hk2 ha2 hkt2
          have : k2 = k := huniq k2 (List.mem_cons_of_mem _ hk2) k (by simp) ha2 ha
            (by rw [hkt2, hk])
          rw [this]
          exact hc
        rcases Bool.or_eq_true_iff.mp ha with hact | hpost
        · cases hc : o.check covered rd k with
          | ok => simp [remove_expired_key_scan, entry_decision_spec, hact, hk, hc]
          | invalid =>
            simp [remove_expired_key_scan, entry_decision_spec, hact, hk, hc, hdrop hc]
          | hard e => simp [remove_expired_key_scan, entry_decision_spec, hact, hk, hc]
        · cases hc : o.check covered rd k with
          | ok => simp [remove_expired_key_scan, entry_decision_spec, hpost, hk, hc]
          | invalid =>
            simp [remove_expired_key_scan, entry_decision_spec, hpost, hk, hc, hdrop hc]
          | hard e => simp [remove_expired_key_scan, entry_decision_spec, hpost, hk, hc]
      · have hact : k.is_active = false := by
          cases h2 : k.is_active
          · rfl
          · exact absurd (by simp [h2]) ha
        have hpost : k.is_post_active = false := by
          cases h2 : k.is_post_active
          · rfl
          · exact absurd (by simp [h2]) ha
        have hpred : ((k.is_active || k.is_post_active) && k.keytag == rd.keytag) = false := by
          simp [hact, hpost]
        have hstep : remove_expired_key_scan o covered rd (k :: rest) =
            remove_expired_key_scan o covered rd rest := by
          simp [remove_expired_key_scan, hact, hpost]
        rw [hstep, ih2]
        simp [entry_decision_spec, List.find?_cons, hpred]
    · have hpred : ((k.is_active || k.is_post_active) && k.keytag == rd.keytag) = false := by
        simp [hk]
      have hstep : remove_expired_key_scan o covered rd (k :: rest) =
          remove_expired_key_scan o covered rd rest := by
        simp [remove_expired_key_scan, hk]
      rw [hstep, ih2]
      simp [entry_decision_spec, List.find?_cons, hpred]

theorem remove_expired_entries_eq_spec (o : SignOracle) (keys : List ZoneKey) (covered : RRset)
    (hscan : ∀ rd, remove_expired_key_scan o covered rd keys =
      entry_decision_spec o keys covered rd) :
    ∀ (l acc : List Rdata) (exp : Nat),
      remove_expired_entries o keys covered l acc exp =
      remove_expired_entries_spec o keys covered l acc exp := by
  intro l
  induction l with
  | nil => intro acc exp; rfl
  | cons rd rest ih =>
    intro acc exp
    simp only [remove_expired_entries, remove_expired_entries_spec, hscan rd]
    cases entry_decision_spec o keys covered rd <;> simp [ih]

theorem remove_expired_entries_acc_mem (o : SignOracle) (keys : List ZoneKey) (covered : RRset) :
    ∀ (l acc : List Rdata) (exp : Nat) (x : Rdata), x ∈ acc →
    ∀ res exp2, remove_expired_entries o keys covered l acc exp = Except.ok (res, exp2) →
    x ∈ res := by
  intro l
  induction l with
  | nil =>
    intro acc exp x hx res exp2 hres
    simp only [remove_expired_entries] at hres
    cases hres
    exact hx
  | cons rd rest ih =>
    intro acc exp x hx res exp2 hres
    simp only [remove_expired_entries] at hres
    cases hscan : remove_expired_key_scan o covered rd keys with
    | keep =>
      rw [hscan] at hres
      exact ih _ _ x hx res exp2 hres
    | drop =>
      rw [hscan] at hres
      exact ih _ _ x (List.mem_append_left _ hx) res exp2 hres
    | abort e =>
      rw [hscan] at hres
      cases hres

theorem remove_expired_entries_drop_mem (o : SignOracle) (keys : List ZoneKey)
    (covered : RRset) :
    ∀ (l acc : List Rdata) (exp : Nat) (rd : Rdata), rd ∈ l →
    remove_expired_key_scan o covered rd keys = EntryOutcome.drop →
    ∀ res exp2, remove_expired_entries o keys covered l acc exp = Except.ok (res, exp2) →
    rd ∈ res := by
  intro l
  induction l with
  | nil => intro acc exp rd h; cases h
  | cons rd2 rest ih =>
    intro acc exp rd hmem hdrop res exp2 hres
    simp only [remove_expired_entries] at hres
    rcases List.mem_cons.mp hmem with heq | hmem2
    · subst heq
      rw [hdrop] at hres
      exact remove_expired_entries_acc_mem o keys covered _ _ _ rd
        (List.mem_append_right _ (by simp)) res exp2 hres
    · cases hscan : remove_expired_key_scan o covered rd2 keys with
      | keep =>
        rw [hscan] at hres
        exact ih _ _ rd hmem2 hdrop res exp2 hres
      | drop =>
        rw [hscan] at hres
        exact ih _ _ rd hmem2 hdrop res exp2 hres
      | abort e =>
        rw [hscan] at hres
        cases hres

/-- C3: remove_expired_rrsigs decides each existing RRSIG entry covering
the RRset exactly as specified — kept (expiration noted) when the
matching active or post-active key verifies it, hard verification errors
abort the whole operation discarding the pending removals, and an entry
with no matching active or post-active key, or an invalid signature, is
scheduled for removal — in particular a signature whose key is no longer
active or post-active is removed even when it still verifies.  Keytags of
active and post-active keys are assumed unambiguous, as the claim
presupposes by speaking of the matching key. -/
theorem C3_remove_expired_matches_spec (o : SignOracle) (keys : List ZoneKey)
    (covered rrsigs : RRset) (changeset : Changeset) (expires_at : Nat)
    (huniq : ∀ k1 ∈ keys, ∀ k2 ∈ keys,
      (k1.is_active || k1.is_post_active) = true →
      (k2.is_active || k2.is_post_active) = true →
      k1.keytag = k2.keytag → k1 = k2) :
    remove_expired_rrsigs o keys covered rrsigs changeset expires_at =
      remove_expired_rrsigs_spec o keys covered rrsigs changeset expires_at ∧
    (∀ rd ∈ knot_synth_rrsig covered.ty rrsigs.rdatas,
      (∀ k ∈ keys, (k.is_active || k.is_post_active) = true → k.keytag ≠ rd.keytag) →
      ∀ cs2 exp2,
        remove_expired_rrsigs o keys covered rrsigs csEmpty expires_at =
          Except.ok (cs2, exp2) →
        rd ∈ csRemRdatas cs2) := by
  have hscan : ∀ rd, remove_expired_key_scan o covered rd keys =
      entry_decision_spec o keys covered rd :=
    fun rd => remove_expired_key_scan_eq_spec o covered rd keys huniq
  constructor
  · simp only [remove_expired_rrsigs, remove_expired_rrsigs_spec]
    rw [remove_expired_entries_eq_spec o keys covered hscan]
  · intro rd hsynth hnokey cs2 exp2 hok
    have hdrop : remove_expired_key_scan o covered rd keys = EntryOutcome.drop := by
      apply remove_expired_key_scan_all_invalid
      intro k hk ha hkt
      exact absurd hkt (hnokey k hk ha)
    simp only [remove_expired_rrsigs] at hok
    by_cases hemp : knot_rrset_empty rrsigs
    · exfalso
      have : rrsigs.rdatas = [] := by
        simpa [knot_rrset_empty] using hemp
      rw [knot_synth_rrsig, this] at hsynth
      simp at hsynth
    · rw [if_neg hemp] at hok
      rcases hrun : remove_expired_entries o keys covered
          (knot_synth_rrsig covered.ty rrsigs.rdatas) [] expires_at with e | p
      · rw [hrun] at hok; cases hok
      · rcases p with ⟨to_remove, exp3⟩
        rw [hrun] at hok
        have hmem : rd ∈ to_remove :=
          remove_expired_entries_drop_mem o keys covered _ [] expires_at rd hsynth hdrop
            to_remove exp3 hrun
        have hok2 : (if to_remove.isEmpty = true then
            (Except.ok (csEmpty, exp3) : Except Err (Changeset × Nat))
          else Except.ok (changeset_add_removal csEmpty
            { owner := rrsigs.owner, ty := KNOT_RRTYPE_RRSIG, rdatas := to_remove }, exp3)) =
            Except.ok (cs2, exp2) := hok
        by_cases hemp2 : to_remove.isEmpty
        · exfalso
          rw [List.isEmpty_iff] at hemp2
          rw [hemp2] at hmem
          cases hmem
        · rw [if_neg hemp2] at hok2
          cases hok2
          simp [csRemRdatas, changeset_add_removal, csEmpty]
          exact hmem

/-- C3 (witness): concrete run with one active ZSK, an RRSIG set holding
one entry signed by a retired key (keytag 9), and the well-behaved
oracle: the operation matches the specification rendering and the
retired-key entry is removed. -/
theorem C3_witness :
    (remove_expired_rrsigs oracleW [zskKey]
        { owner := 10, ty := KNOT_RRTYPE_A, rdatas := [⟨0, 0, 0, 5⟩] }
        { owner := 10, ty := KNOT_RRTYPE_RRSIG, rdatas := [⟨9, KNOT_RRTYPE_A, 800, 77⟩] }
        csEmpty 0 =
      remove_expired_rrsigs_spec oracleW [zskKey]
        { owner := 10, ty := KNOT_RRTYPE_A, rdatas := [⟨0, 0, 0, 5⟩] }
        { owner := 10, ty := KNOT_RRTYPE_RRSIG, rdatas := [⟨9, KNOT_RRTYPE_A, 800, 77⟩] }
        csEmpty 0) ∧
    (∀ rd ∈ knot_synth_rrsig KNOT_RRTYPE_A [⟨9, KNOT_RRTYPE_A, 800, 77⟩],
      (∀ k ∈ [zskKey], (k.is_active || k.is_post_active) = true → k.keytag ≠ rd.keytag) →
      ∀ cs2 exp2,
        remove_expired_rrsigs oracleW [zskKey]
            { owner := 10, ty := KNOT_RRTYPE_A, rdatas := [⟨0, 0, 0, 5⟩] }
            { owner := 10, ty := KNOT_RRTYPE_RRSIG, rdatas := [⟨9, KNOT_RRTYPE_A, 800, 77⟩] }
            csEmpty 0 =
          Except.ok (cs2, exp2) →
        rd ∈ csRemRdatas cs2) :=
  C3_remove_expired_matches_spec oracleW [zskKey]
    { owner := 10, ty := KNOT_RRTYPE_A, rdatas := [⟨0, 0, 0, 5⟩] }
    { owner := 10, ty := KNOT_RRTYPE_RRSIG, rdatas := [⟨9, KNOT_RRTYPE_A, 800, 77⟩] }
    csEmpty 0 (by decide)

/-- C8 (witness): the fixture zone with the well-behaved oracle and two
threads satisfies the expiration characterization. -/
theorem C8_witness :
    ((knot_zone_sign oracleW ctxStd [zskKey] update1).1 = none →
      ((knot_zone_sign oracleW ctxStd [zskKey] update1).2.2 =
        knot_time_min
          (zone_tree_sign oracleW ctxStd [zskKey] update1.new_cont.nodes
            ctxStd.signing_threads update1).2.2
          (zone_tree_sign oracleW ctxStd [zskKey] update1.new_cont.nsec3_nodes
            ctxStd.signing_threads update1).2.2 ∧
       0 < (knot_zone_sign oracleW ctxStd [zskKey] update1).2.2 ∧
       (knot_zone_sign oracleW ctxStd [zskKey] update1).2.2 ≤
         ctxStd.now + ctxStd.rrsig_lifetime)) ∧
    (∀ (tree : List ZoneNode) (u2 : ZoneUpdate),
      (∀ w ∈ (List.range ctxStd.signing_threads).map
          (fun i => tree_sign_thread oracleW ctxStd [zskKey] ctxStd.signing_threads i tree
            worker_init),
        w.errcode = none) →
      (zone_tree_sign oracleW ctxStd [zskKey] tree ctxStd.signing_threads u2).2.2 =
        List.foldl (fun a w => knot_time_min a w.expires_at)
          (knot_time_add ctxStd.now ctxStd.rrsig_lifetime)
          ((List.range ctxStd.signing_threads).map
            (fun i => tree_sign_thread oracleW ctxStd [zskKey] ctxStd.signing_threads i tree
              worker_init))) :=
  C8_expire_clamped oracleW ctxStd [zskKey] update1 (by decide) (by decide)

/-! ### Shift lemmas: every signing primitive appends to the changeset it
is given and combines the incoming expiration by knot_time_min with its
own contribution computed from the unset value. -/

theorem knot_time_min_left_comm (a b c : Nat) :
    knot_time_min (knot_time_min a b) c = knot_time_min b (knot_time_min a c) := by
  rw [knot_time_min_comm a b, knot_time_min_assoc]

theorem csAppend_empty_left (c : Changeset) : csAppend csEmpty c = c := rfl

theorem csAppend_empty_right (c : Changeset) : csAppend c csEmpty = c := by
  simp [csAppend, csEmpty]

theorem csAppend_assoc (a b c : Changeset) :
    csAppend (csAppend a b) c = csAppend a (csAppend b c) := by
  simp [csAppend, List.append_assoc]

theorem remove_expired_entries_shift (o : SignOracle) (keys : List ZoneKey) (covered : RRset) :
    ∀ (l acc : List Rdata) (exp : Nat),
      remove_expired_entries o keys covered l acc exp =
      (match remove_expired_entries o keys covered l [] 0 with
       | .error e => .error e
       | .ok (t0, e0) => .ok (acc ++ t0, knot_time_min exp e0)) := by
  intro l
  induction l with
  | nil =>
    intro acc exp
    simp [remove_expired_entries, knot_time_min_zero_right]
  | cons rd rest ih =>
    intro acc exp
    cases hscan : remove_expired_key_scan o covered rd keys with
    | keep =>
      simp only [remove_expired_entries, hscan]
      rw [ih acc (knot_time_min rd.expiration exp), ih [] (knot_time_min rd.expiration 0)]
      cases hrest : remove_expired_entries o keys covered rest [] 0 with
      | error e => rfl
      | ok p =>
        rcases p with ⟨t0, e0⟩
        simp only [List.nil_append, knot_time_min_zero_right, knot_time_min_left_comm]
    | drop =>
      simp only [remove_expired_entries, hscan]
      rw [ih (acc ++ [rd]) exp, ih ([] ++ [rd]) 0]
      cases hrest : remove_expired_entries o keys covered rest [] 0 with
      | error e => rfl
      | ok p =>
        rcases p with ⟨t0, e0⟩
        simp [List.append_assoc, knot_time_min_zero_left]
    | abort e =>
      simp only [remove_expired_entries, hscan]

theorem remove_expired_rrsigs_shift (o : SignOracle) (keys : List ZoneKey)
    (covered rrsigs : RRset) (cs : Changeset) (exp : Nat) :
    remove_expired_rrsigs o keys covered rrsigs cs exp =
      (match remove_expired_rrsigs o keys covered rrsigs csEmpty 0 with
       | .error e => .error e
       | .ok (d, e0) => .ok (csAppend cs d, knot_time_min exp e0)) := by
  simp only [remove_expired_rrsigs]
  by_cases hemp : knot_rrset_empty rrsigs
  · simp [hemp, csAppend_empty_right, knot_time_min_zero_right]
  · simp only [hemp, if_false, Bool.false_eq_true]
    rw [remove_expired_entries_shift o keys covered _ [] exp,
        remove_expired_entries_shift o keys covered _ [] 0]
    cases hrun : remove_expired_entries o keys covered
        (knot_synth_rrsig covered.ty rrsigs.rdatas) [] 0 with
    | error e => rfl
    | ok p =>
      rcases p with ⟨t0, e0⟩
      simp only [List.nil_append, knot_time_min_zero_left]
      by_cases hemp2 : t0.isEmpty
      · simp [hemp2, csAppend_empty_right]
      · simp [hemp2, csAppend, changeset_add_removal, csEmpty]

theorem add_missing_keys_loop_shift (o : SignOracle) (covered rrsigs : RRset) :
    ∀ (l : List ZoneKey) (acc : List Rdata) (exp : Nat),
      add_missing_keys_loop o covered rrsigs l acc exp =
      (acc ++ (add_missing_keys_loop o covered rrsigs l [] 0).1,
       knot_time_min exp (add_missing_keys_loop o covered rrsigs l [] 0).2) := by
  intro l
  induction l with
  | nil =>
    intro acc exp
    simp [add_missing_keys_loop, knot_time_min_zero_right]
  | cons key rest ih =>
    intro acc exp
    by_cases huse : knot_zone_sign_use_key key covered
    · by_cases hvalid : valid_signature_exists o covered rrsigs key
      · simp only [add_missing_keys_loop, huse, hvalid, Bool.not_true, if_false,
          Bool.false_eq_true, if_true]
        exact ih acc exp
      · simp only [add_missing_keys_loop, huse, hvalid, Bool.not_true, Bool.not_false,
          if_false, if_true, Bool.false_eq_true]
        rw [ih (acc ++ [o.sign covered key]) (knot_time_min exp (o.sign covered key).expiration),
            ih ([] ++ [o.sign covered key])
              (knot_time_min 0 (o.sign covered key).expiration)]
        simp [List.append_assoc, knot_time_min_zero_left]
        rw [← knot_time_min_assoc]
    · simp only [add_missing_keys_loop, huse, Bool.not_false, if_true]
      exact ih acc exp

theorem add_missing_rrsigs_shift (o : SignOracle) (ctx : DnssecCtx) (keys : List ZoneKey)
    (covered rrsigs : RRset) (cs : Changeset) (exp : Nat) :
    add_missing_rrsigs o ctx keys covered rrsigs cs exp =
      (csAppend cs (add_missing_rrsigs o ctx keys covered rrsigs csEmpty 0).1,
       knot_time_min exp (add_missing_rrsigs o ctx keys covered rrsigs csEmpty 0).2) := by
  simp only [add_missing_rrsigs]
  by_cases hoff : (covered.ty == KNOT_RRTYPE_DNSKEY && covered.owner == ctx.zone_dname &&
      ctx.offline_rrsig.isSome) = true
  · simp [hoff, changeset_add_addition, csAppend, csEmpty, knot_time_min_zero_right]
  · simp only [hoff, if_false, Bool.false_eq_true]
    rw [add_missing_keys_loop_shift o covered rrsigs keys [] exp,
        add_missing_keys_loop_shift o covered rrsigs keys [] 0]
    simp only [List.nil_append, knot_time_min_zero_left]
    by_cases hemp : (add_missing_keys_loop o covered rrsigs keys [] 0).1.isEmpty
    · simp [hemp, csAppend_empty_right]
    · simp [hemp, csAppend, changeset_add_addition, csEmpty]

theorem resign_rrset_shift (o : SignOracle) (ctx : DnssecCtx) (keys : List ZoneKey)
    (covered rrsigs : RRset) (cs : Changeset) (exp : Nat) :
    resign_rrset o ctx keys covered rrsigs cs exp =
      (match resign_rrset o ctx keys covered rrsigs csEmpty 0 with
       | .error e => .error e
       | .ok (d, e0) => .ok (csAppend cs d, knot_time_min exp e0)) := by
  simp only [resign_rrset]
  rw [remove_expired_rrsigs_shift o keys covered rrsigs cs exp]
  cases hrun : remove_expired_rrsigs o keys covered rrsigs csEmpty 0 with
  | error e => rfl
  | ok p =>
    rcases p with ⟨d1, e1⟩
    simp only []
    rw [add_missing_rrsigs_shift o ctx keys covered rrsigs (csAppend cs d1)
        (knot_time_min exp e1),
      add_missing_rrsigs_shift o ctx keys covered rrsigs d1 e1]
    simp [csAppend_assoc, knot_time_min_assoc]

theorem remove_rrset_rrsigs_shift (owner ty : Nat) (rrsigs : RRset) (cs : Changeset) :
    remove_rrset_rrsigs owner ty rrsigs cs =
      csAppend cs (remove_rrset_rrsigs owner ty rrsigs csEmpty) := by
  simp only [remove_rrset_rrsigs]
  by_cases hemp : (knot_synth_rrsig ty rrsigs.rdatas).isEmpty
  · simp [hemp, csAppend_empty_right]
  · simp [hemp, csAppend, changeset_add_removal, csEmpty]

theorem force_resign_rrset_shift (o : SignOracle) (ctx : DnssecCtx) (keys : List ZoneKey)
    (covered rrsigs : RRset) (cs : Changeset) :
    force_resign_rrset o ctx keys covered rrsigs cs =
      csAppend cs (force_resign_rrset o ctx keys covered rrsigs csEmpty) := by
  simp only [force_resign_rrset]
  by_cases hemp : knot_rrset_empty rrsigs
  · simp only [hemp, Bool.not_true, if_false, Bool.false_eq_true]
    rw [add_missing_rrsigs_shift o ctx keys covered _ cs 0]
  · simp only [hemp, Bool.not_false, if_true, Bool.false_eq_true]
    rw [remove_rrset_rrsigs_shift covered.owner covered.ty rrsigs cs]
    rw [add_missing_rrsigs_shift o ctx keys covered
        { owner := covered.owner, ty := KNOT_RRTYPE_RRSIG, rdatas := [] }
        (csAppend cs (remove_rrset_rrsigs covered.owner covered.ty rrsigs csEmpty)) 0,
      add_missing_rrsigs_shift o ctx keys covered
        { owner := covered.owner, ty := KNOT_RRTYPE_RRSIG, rdatas := [] }
        (remove_rrset_rrsigs covered.owner covered.ty rrsigs csEmpty) 0]
    simp [csAppend_assoc]

theorem remove_standalone_rrsigs_shift (node : ZoneNode) (rrsigs : RRset) :
    ∀ (l : List Rdata) (cs : Changeset),
      l.foldl (fun cs2 rd =>
        if node_rrtype_exists node rd.type_covered then cs2
        else changeset_add_removal cs2
          { owner := rrsigs.owner, ty := rrsigs.ty, rdatas := [rd] }) cs =
      csAppend cs (l.foldl (fun cs2 rd =>
        if node_rrtype_exists node rd.type_covered then cs2
        else changeset_add_removal cs2
          { owner := rrsigs.owner, ty := rrsigs.ty, rdatas := [rd] }) csEmpty) := by
  intro l
  induction l with
  | nil => intro cs; simp [csAppend_empty_right]
  | cons rd rest ih =>
    intro cs
    by_cases hex : node_rrtype_exists node rd.type_covered
    · simp only [List.foldl_cons, hex, if_true]
      exact ih cs
    · simp only [List.foldl_cons, hex, if_false, Bool.false_eq_true]
      rw [ih (changeset_add_removal cs _), ih (changeset_add_removal csEmpty _)]
      simp [changeset_add_removal, csAppend, csEmpty, List.append_assoc]

theorem sign_node_rrsets_loop_shift (o : SignOracle) (ctx : DnssecCtx) (keys : List ZoneKey)
    (node : ZoneNode) (rrsigs : RRset) :
    ∀ (l : List RRset) (cs : Changeset) (exp : Nat),
      sign_node_rrsets_loop o ctx keys node rrsigs l cs exp =
      (match sign_node_rrsets_loop o ctx keys node rrsigs l csEmpty 0 with
       | .error e => .error e
       | .ok (d, e0) => .ok (csAppend cs d, knot_time_min exp e0)) := by
  intro l
  induction l with
  | nil =>
    intro cs exp
    simp [sign_node_rrsets_loop, csAppend_empty_right, knot_time_min_zero_right]
  | cons r rest ih =>
    intro cs exp
    by_cases hty : (r.ty == KNOT_RRTYPE_RRSIG) = true
    · simp only [sign_node_rrsets_loop, hty, if_true]
      exact ih cs exp
    · by_cases hsign : knot_zone_sign_rr_should_be_signed (some node) r
      · by_cases hdrop : ctx.rrsig_drop_existing
        · simp only [sign_node_rrsets_loop, hty, hsign, hdrop, Bool.not_true, if_false,
            if_true, Bool.false_eq_true]
          rw [force_resign_rrset_shift o ctx keys r rrsigs cs]
          rw [ih (csAppend cs (force_resign_rrset o ctx keys r rrsigs csEmpty)) exp,
              ih (force_resign_rrset o ctx keys r rrsigs csEmpty) 0]
          cases hrest : sign_node_rrsets_loop o ctx keys node rrsigs rest csEmpty 0 with
          | error e => rfl
          | ok p =>
            rcases p with ⟨d0, e0⟩
            simp [csAppend_assoc, knot_time_min_zero_left]
        · simp only [sign_node_rrsets_loop, hty, hsign, hdrop, Bool.not_true, if_false,
            if_true, Bool.false_eq_true]
          rw [resign_rrset_shift o ctx keys r rrsigs cs exp]
          cases hres : resign_rrset o ctx keys r rrsigs csEmpty 0 with
          | error e => rfl
          | ok p =>
            rcases p with ⟨d1, e1⟩
            simp only []
            rw [ih (csAppend cs d1) (knot_time_min exp e1), ih d1 e1]
            cases hrest : sign_node_rrsets_loop o ctx keys node rrsigs rest csEmpty 0 with
            | error e => rfl
            | ok p2 =>
              rcases p2 with ⟨d0, e0⟩
              simp [csAppend_assoc, knot_time_min_assoc]
      · simp only [sign_node_rrsets_loop, hty, hsign, Bool.not_false, if_false, if_true,
          Bool.false_eq_true]
        exact ih cs exp

theorem sign_node_rrsets_shift (o : SignOracle) (ctx : DnssecCtx) (keys : List ZoneKey)
    (node : ZoneNode) (cs : Changeset) (exp : Nat) :
    sign_node_rrsets o ctx keys node cs exp =
      (match nodeDelta o ctx keys node with
       | .error e => .error e
       | .ok (d, e0) => .ok (csAppend cs d, knot_time_min exp e0)) := by
  simp only [sign_node_rrsets, nodeDelta]
  rw [sign_node_rrsets_loop_shift o ctx keys node _ node.rrsets cs exp]
  cases hrun : sign_node_rrsets_loop o ctx keys node
      (node_rrset node KNOT_RRTYPE_RRSIG) node.rrsets csEmpty 0 with
  | error e => rfl
  | ok p =>
    rcases p with ⟨d0, e0⟩
    simp only [remove_standalone_rrsigs]
    rw [remove_standalone_rrsigs_shift node (node_rrset node KNOT_RRTYPE_RRSIG) _
        (csAppend cs d0),
      remove_standalone_rrsigs_shift node (node_rrset node KNOT_RRTYPE_RRSIG) _ d0]
    simp [csAppend_assoc]

/-! ### Worker characterization and the index partition (claims C5, C6) -/

theorem tree_sign_thread_char (o : SignOracle) (ctx : DnssecCtx) (keys : List ZoneKey)
    (N i : Nat) :
    ∀ (l : List ZoneNode) (k : Nat) (cs : Changeset) (exp : Nat) (d : Changeset) (e0 : Nat),
      runDeltas o ctx keys (pickNodes N i k l) = .ok (d, e0) →
      ∃ k2, tree_sign_thread o ctx keys N i l
          { changeset := cs, expires_at := exp, rrset_index := k, errcode := none } =
        { changeset := csAppend cs d, expires_at := knot_time_min exp e0,
          rrset_index := k2, errcode := none } := by
  intro l
  induction l with
  | nil =>
    intro k cs exp d e0 hrun
    simp only [pickNodes, runDeltas] at hrun
    cases hrun
    exact ⟨k, by simp [tree_sign_thread, csAppend_empty_right, knot_time_min_zero_right]⟩
  | cons n rest ih =>
    intro k cs exp d e0 hrun
    by_cases hemp : n.rrsets.isEmpty
    · have helig : eligibleNode n = false := by simp [eligibleNode, hemp]
      simp only [pickNodes, helig, Bool.false_eq_true, if_false] at hrun
      have hstep : tree_sign_thread o ctx keys N i (n :: rest)
          { changeset := cs, expires_at := exp, rrset_index := k, errcode := none } =
          tree_sign_thread o ctx keys N i rest
          { changeset := cs, expires_at := exp, rrset_index := k, errcode := none } := by
        simp [tree_sign_thread, sign_node, hemp]
      rw [hstep]
      exact ih k cs exp d e0 hrun
    · by_cases hnon : n.nonauth
      · have helig : eligibleNode n = false := by simp [eligibleNode, hnon]
        simp only [pickNodes, helig, Bool.false_eq_true, if_false] at hrun
        have hstep : tree_sign_thread o ctx keys N i (n :: rest)
            { changeset := cs, expires_at := exp, rrset_index := k, errcode := none } =
            tree_sign_thread o ctx keys N i rest
            { changeset := cs, expires_at := exp, rrset_index := k, errcode := none } := by
          simp [tree_sign_thread, sign_node, hemp, hnon]
        rw [hstep]
        exact ih k cs exp d e0 hrun
      · have helig : eligibleNode n = true := by simp [eligibleNode, hemp, hnon]
        by_cases hclaim : k % N = i
        · simp only [pickNodes, helig, if_true, hclaim, beq_self_eq_true] at hrun
          simp only [runDeltas] at hrun
          cases hnd : nodeDelta o ctx keys n with
          | error e => rw [hnd] at hrun; cases hrun
          | ok p =>
            rcases p with ⟨dn, en⟩
            rw [hnd] at hrun
            cases hrd : runDeltas o ctx keys (pickNodes N i (k + 1) rest) with
            | error e => rw [hrd] at hrun; cases hrun
            | ok p2 =>
              rcases p2 with ⟨ds, es⟩
              rw [hrd] at hrun
              cases hrun
              obtain ⟨k2, hk2⟩ := ih (k + 1) (csAppend cs dn) (knot_time_min exp en) ds es hrd
              refine ⟨k2, ?_⟩
              have hstep : tree_sign_thread o ctx keys N i (n :: rest)
                  { changeset := cs, expires_at := exp, rrset_index := k, errcode := none } =
                  tree_sign_thread o ctx keys N i rest
                  { changeset := csAppend cs dn, expires_at := knot_time_min exp en,
                    rrset_index := k + 1, errcode := none } := by
                simp only [tree_sign_thread, sign_node, hemp, hnon, Bool.false_eq_true,
                  if_false, hclaim, bne_self_eq_false]
                rw [sign_node_rrsets_shift, hnd]
                simp
              rw [hstep, hk2, csAppend_assoc, knot_time_min_assoc]
        · have hclaim2 : (k % N == i) = false := by
            simp [hclaim]
          simp only [pickNodes, helig, if_true, hclaim2, Bool.false_eq_true, if_false] at hrun
          have hstep : tree_sign_thread o ctx keys N i (n :: rest)
              { changeset := cs, expires_at := exp, rrset_index := k, errcode := none } =
              tree_sign_thread o ctx keys N i rest
              { changeset := cs, expires_at := exp, rrset_index := k + 1,
                errcode := none } := by
            simp [tree_sign_thread, sign_node, hemp, hnon, hclaim]
          rw [hstep]
          exact ih (k + 1) cs exp d e0 hrun

theorem worker_run_char (o : SignOracle) (ctx : DnssecCtx) (keys : List ZoneKey)
    (N i : Nat) (tree : List ZoneNode) (d : Changeset) (e0 : Nat)
    (h : runDeltas o ctx keys (pickNodes N i 0 tree) = .ok (d, e0)) :
    ∃ k2, tree_sign_thread o ctx keys N i tree worker_init =
      { changeset := d, expires_at := e0, rrset_index := k2, errcode := none } := by
  obtain ⟨k2, hk⟩ := tree_sign_thread_char o ctx keys N i tree 0 csEmpty 0 d e0 h
  refine ⟨k2, ?_⟩
  have h2 : tree_sign_thread o ctx keys N i tree worker_init =
      { changeset := csAppend csEmpty d, expires_at := knot_time_min 0 e0,
        rrset_index := k2, errcode := none } := hk
  rw [h2]
  simp [csAppend_empty_left, knot_time_min_zero_left]

theorem runDeltas_ok (o : SignOracle) (ctx : DnssecCtx) (keys : List ZoneKey) :
    ∀ (l : List ZoneNode), (∀ n ∈ l, (nodeDelta o ctx keys n).isOk = true) →
      runDeltas o ctx keys l =
        .ok ({ additions := l.flatMap (nodeDeltaAdds o ctx keys),
               removals := l.flatMap (nodeDeltaRems o ctx keys) },
             tmFold (l.map (nodeDeltaExp o ctx keys))) := by
  intro l
  induction l with
  | nil => intro h; simp [runDeltas, tmFold, csEmpty]
  | cons n rest ih =>
    intro h
    have hn := h n (by simp)
    cases hnd : nodeDelta o ctx keys n with
    | error e => rw [hnd] at hn; simp [Except.isOk, Except.toBool] at hn
    | ok p =>
      rcases p with ⟨dn, en⟩
      have hrest := ih (fun n2 hn2 => h n2 (by simp [hn2]))
      simp only [runDeltas, hnd, hrest]
      simp [csAppend, nodeDeltaAdds, nodeDeltaRems, nodeDeltaExp, hnd, tmFold]

theorem pickNodes_subset (N i : Nat) :
    ∀ (l : List ZoneNode) (k : Nat) (n : ZoneNode), n ∈ pickNodes N i k l →
      n ∈ eligList l := by
  intro l
  induction l with
  | nil => intro k n h; simp [pickNodes] at h
  | cons m rest ih =>
    intro k n h
    by_cases helig : eligibleNode m
    · simp only [pickNodes, helig, if_true] at h
      by_cases hik : (k % N == i) = true
      · rw [if_pos hik] at h
        rcases List.mem_cons.mp h with heq | hmem
        · subst heq
          simp [eligList, List.mem_filter, helig]
        · simp only [eligList, List.filter_cons, helig, if_true]
          exact List.mem_cons_of_mem _ (ih (k + 1) n hmem)
      · rw [if_neg hik] at h
        simp only [eligList, List.filter_cons, helig, if_true]
        exact List.mem_cons_of_mem _ (ih (k + 1) n h)
    · simp only [pickNodes, helig, Bool.false_eq_true, if_false] at h
      simp only [eligList, List.filter_cons, helig, Bool.false_eq_true, if_false]
      exact ih k n h

theorem pickNodes_one :
    ∀ (l : List ZoneNode) (k : Nat), pickNodes 1 0 k l = eligList l := by
  intro l
  induction l with
  | nil => intro k; rfl
  | cons n rest ih =>
    intro k
    by_cases helig : eligibleNode n
    · simp [pickNodes, helig, Nat.mod_one, eligList, List.filter_cons, ih]
    · simp [pickNodes, helig, eligList, List.filter_cons, ih k]

theorem pickNodes_partition {α : Type} (g : ZoneNode → List α) (N : Nat) (hN : 0 < N) :
    ∀ (l : List ZoneNode) (k : Nat),
      (∑ i ∈ Finset.range N, (((pickNodes N i k l).flatMap g : List α) : Multiset α)) =
      (((eligList l).flatMap g : List α) : Multiset α) := by
  intro l
  induction l with
  | nil =>
    intro k
    simp [pickNodes, eligList]
  | cons n rest ih =>
    intro k
    by_cases helig : eligibleNode n
    · have hsplit : ∀ i, (((pickNodes N i k (n :: rest)).flatMap g : List α) : Multiset α) =
          (if k % N = i then ((g n : List α) : Multiset α) else 0) +
          (((pickNodes N i (k + 1) rest).flatMap g : List α) : Multiset α) := by
        intro i
        by_cases hik : k % N = i
        · simp [pickNodes, helig, hik]
        · have : (k % N == i) = false := by simp [hik]
          simp [pickNodes, helig, this, hik]
      rw [Finset.sum_congr rfl (fun i _ => hsplit i), Finset.sum_add_distrib]
      rw [Finset.sum_ite_eq (Finset.range N) (k % N) (fun _ => ((g n : List α) : Multiset α))]
      rw [if_pos (Finset.mem_range.mpr (Nat.mod_lt k hN))]
      rw [ih (k + 1)]
      simp [eligList, List.filter_cons, helig]
    · have : ∀ i, pickNodes N i k (n :: rest) = pickNodes N i k rest := by
        intro i
        simp [pickNodes, helig]
      rw [Finset.sum_congr rfl (fun i _ => by rw [this i])]
      rw [ih k]
      simp [eligList, List.filter_cons, helig]

theorem okChangesets_allok (ws : List WorkerSt) (h : ∀ w ∈ ws, w.errcode = none) :
    okChangesets ws = ws.map (fun w => w.changeset) := by
  induction ws with
  | nil => rfl
  | cons w rest ih =>
    have hw : w.errcode = none := h w (by simp)
    simp only [okChangesets, List.takeWhile_cons, hw, Option.isNone_none, List.map_cons]
    have := ih (fun w2 hw2 => h w2 (by simp [hw2]))
    simp only [okChangesets] at this
    simp [this]

theorem tmFold_append : ∀ (a b : List Nat), tmFold (a ++ b) = knot_time_min (tmFold a) (tmFold b) := by
  intro a
  induction a with
  | nil => intro b; simp [tmFold, knot_time_min_zero_left]
  | cons x rest ih =>
    intro b
    simp only [tmFold, List.foldr_cons, List.cons_append] at ih ⊢
    rw [ih b, knot_time_min_assoc]

theorem tmFold_map_tmFold : ∀ (ls : List (List Nat)),
    tmFold (ls.map tmFold) = tmFold ls.flatten := by
  intro ls
  induction ls with
  | nil => rfl
  | cons a rest ih =>
    simp only [List.map_cons, List.flatten_cons]
    rw [tmFold_append]
    simp only [tmFold, List.foldr_cons] at ih ⊢
    rw [ih]

theorem tmFold_perm : ∀ (l1 l2 : List Nat), l1.Perm l2 → tmFold l1 = tmFold l2 := by
  intro l1 l2 h
  induction h with
  | nil => rfl
  | cons x h2 ih => simp only [tmFold, List.foldr_cons] at ih ⊢; rw [ih]
  | swap x y l =>
    simp only [tmFold, List.foldr_cons]
    rw [← knot_time_min_assoc, knot_time_min_comm y x, knot_time_min_assoc]
  | trans h1 h2 ih1 ih2 => rw [ih1, ih2]

theorem foldl_tmin_eq : ∀ (l : List Nat) (e : Nat),
    List.foldl knot_time_min e l = knot_time_min e (tmFold l) := by
  intro l
  induction l with
  | nil => intro e; simp [tmFold, knot_time_min_zero_right]
  | cons x rest ih =>
    intro e
    simp only [List.foldl_cons, tmFold, List.foldr_cons]
    rw [ih (knot_time_min e x), knot_time_min_assoc]
    simp [tmFold]

theorem flatMap_singleton_id : ∀ (l : List ZoneNode), l.flatMap (fun n => [n]) = l := by
  intro l
  induction l with
  | nil => rfl
  | cons n rest ih => simp [List.flatMap_cons, ih]

theorem coe_range_flatMap {α : Type} (F : Nat → List α) :
    ∀ N : Nat, (((List.range N).flatMap F : List α) : Multiset α) =
      ∑ i ∈ Finset.range N, ((F i : List α) : Multiset α) := by
  intro N
  induction N with
  | zero => simp
  | succ m ih =>
    rw [List.range_succ, Finset.sum_range_succ, ← ih]
    simp

theorem list_flatMap_singleton {α β : Type} (f : α → β) :
    ∀ l : List α, l.flatMap (fun a => [f a]) = l.map f := by
  intro l
  induction l with
  | nil => rfl
  | cons a rest ih => simp [ih]

theorem list_flatten_map {α β : Type} (f : α → List β) :
    ∀ l : List α, (l.map f).flatten = l.flatMap f := by
  intro l
  induction l with
  | nil => rfl
  | cons a rest ih => simp [ih]

theorem map_flatMap_helper {α β γ : Type} (f : α → β) (g : β → List γ) :
    ∀ l : List α, (l.map f).flatMap g = l.flatMap (fun x => g (f x)) := by
  intro l
  induction l with
  | nil => rfl
  | cons a rest ih => simp [ih]

theorem foldl_tmin_accessor (ws : List WorkerSt) : ∀ e : Nat,
    List.foldl (fun a w => knot_time_min a w.expires_at) e ws =
      knot_time_min e (tmFold (ws.map (fun w => w.expires_at))) := by
  induction ws with
  | nil => intro e; simp [tmFold, knot_time_min_zero_right]
  | cons w rest ih =>
    intro e
    simp only [List.foldl_cons, List.map_cons, tmFold, List.foldr_cons]
    rw [ih (knot_time_min e w.expires_at), knot_time_min_assoc]
    simp [tmFold]

/-- C5: with any per-node outcome free of errors, signing a tree with N
threads and with 1 thread succeeds in both cases and produces the same
merged changeset up to internal ordering (equal multisets of additions
and of removals) and the same expiration; the node assignment is the
deterministic visitation-index-mod-N partition, every eligible node
being claimed by exactly one worker. -/
theorem C5_parallel_deterministic (o : SignOracle) (ctx : DnssecCtx) (keys : List ZoneKey)
    (tree : List ZoneNode) (N : Nat) (u : ZoneUpdate) (hN : 0 < N)
    (hok : ∀ n ∈ eligList tree, (nodeDelta o ctx keys n).isOk = true) :
    ((zone_tree_sign o ctx keys tree N u).1 = none ∧
     (zone_tree_sign o ctx keys tree 1 u).1 = none) ∧
    ((((zone_tree_sign o ctx keys tree N u).2.1.applied.drop u.applied.length).flatMap
        Changeset.additions : List RRset) : Multiset RRset) =
      ((((zone_tree_sign o ctx keys tree 1 u).2.1.applied.drop u.applied.length).flatMap
        Changeset.additions : List RRset) : Multiset RRset) ∧
    ((((zone_tree_sign o ctx keys tree N u).2.1.applied.drop u.applied.length).flatMap
        Changeset.removals : List RRset) : Multiset RRset) =
      ((((zone_tree_sign o ctx keys tree 1 u).2.1.applied.drop u.applied.length).flatMap
        Changeset.removals : List RRset) : Multiset RRset) ∧
    (zone_tree_sign o ctx keys tree N u).2.2 = (zone_tree_sign o ctx keys tree 1 u).2.2 ∧
    (((List.range N).flatMap (fun i => pickNodes N i 0 tree) : List ZoneNode) : Multiset ZoneNode) =
      ((eligList tree : List ZoneNode) : Multiset ZoneNode) := by
  have hworker : ∀ (N2 i : Nat), ∃ k2,
      tree_sign_thread o ctx keys N2 i tree worker_init =
      { changeset := { additions := (pickNodes N2 i 0 tree).flatMap (nodeDeltaAdds o ctx keys),
                       removals := (pickNodes N2 i 0 tree).flatMap (nodeDeltaRems o ctx keys) },
        expires_at := tmFold ((pickNodes N2 i 0 tree).map (nodeDeltaExp o ctx keys)),
        rrset_index := k2, errcode := none } := by
    intro N2 i
    apply worker_run_char
    apply runDeltas_ok
    intro n hn
    exact hok n (pickNodes_subset N2 i tree 0 n hn)
  have hwn : ∀ (N2 i : Nat),
      (tree_sign_thread o ctx keys N2 i tree worker_init).errcode = none := by
    intro N2 i
    obtain ⟨k2, hw⟩ := hworker N2 i
    rw [hw]
  have hwc : ∀ (N2 i : Nat),
      (tree_sign_thread o ctx keys N2 i tree worker_init).changeset =
      { additions := (pickNodes N2 i 0 tree).flatMap (nodeDeltaAdds o ctx keys),
        removals := (pickNodes N2 i 0 tree).flatMap (nodeDeltaRems o ctx keys) } := by
    intro N2 i
    obtain ⟨k2, hw⟩ := hworker N2 i
    rw [hw]
  have hwe : ∀ (N2 i : Nat),
      (tree_sign_thread o ctx keys N2 i tree worker_init).expires_at =
      tmFold ((pickNodes N2 i 0 tree).map (nodeDeltaExp o ctx keys)) := by
    intro N2 i
    obtain ⟨k2, hw⟩ := hworker N2 i
    rw [hw]
  have hallnone : ∀ (N2 : Nat), ∀ w ∈ (List.range N2).map
      (fun i => tree_sign_thread o ctx keys N2 i tree worker_init), w.errcode = none := by
    intro N2 w hw
    obtain ⟨i, hi, rfl⟩ := List.mem_map.mp hw
    exact hwn N2 i
  have hret : ∀ (N2 : Nat), (zone_tree_sign o ctx keys tree N2 u).1 = none := by
    intro N2
    rw [zone_tree_sign_eq, (merge_workers_prefixed _ u _).1]
    exact (firstWorkerErr_eq_none _).mpr (hallnone N2)
  have happlied : ∀ (N2 : Nat),
      (zone_tree_sign o ctx keys tree N2 u).2.1.applied.drop u.applied.length =
      (List.range N2).map (fun i =>
        ({ additions := (pickNodes N2 i 0 tree).flatMap (nodeDeltaAdds o ctx keys),
           removals := (pickNodes N2 i 0 tree).flatMap (nodeDeltaRems o ctx keys) } :
          Changeset)) := by
    intro N2
    rw [zone_tree_sign_eq, (merge_workers_prefixed _ u _).2, List.drop_left]
    rw [okChangesets_allok _ (hallnone N2), List.map_map]
    exact List.map_congr_left (fun i _ => hwc N2 i)
  have hexp : ∀ (N2 : Nat),
      (zone_tree_sign o ctx keys tree N2 u).2.2 =
      knot_time_min (knot_time_add ctx.now ctx.rrsig_lifetime)
        (tmFold ((List.range N2).flatMap
          (fun i => (pickNodes N2 i 0 tree).map (nodeDeltaExp o ctx keys)))) := by
    intro N2
    rw [zone_tree_sign_eq, merge_workers_exp_allok _ (hallnone N2) u _, foldl_tmin_accessor]
    congr 1
    rw [List.map_map]
    have hA : List.map ((fun w : WorkerSt => w.expires_at) ∘
        fun i => tree_sign_thread o ctx keys N2 i tree worker_init) (List.range N2) =
        List.map (fun i => tmFold ((pickNodes N2 i 0 tree).map (nodeDeltaExp o ctx keys)))
          (List.range N2) :=
      List.map_congr_left (fun i _ => hwe N2 i)
    rw [hA]
    have hB : (List.range N2).map
        (fun i => tmFold ((pickNodes N2 i 0 tree).map (nodeDeltaExp o ctx keys))) =
        ((List.range N2).map
          (fun i => (pickNodes N2 i 0 tree).map (nodeDeltaExp o ctx keys))).map tmFold := by
      simp [List.map_map, Function.comp]
    rw [hB, tmFold_map_tmFold, list_flatten_map]
  have hadds : ∀ N2 : Nat, 0 < N2 →
      ((((zone_tree_sign o ctx keys tree N2 u).2.1.applied.drop u.applied.length).flatMap
        Changeset.additions : List RRset) : Multiset RRset) =
      (((eligList tree).flatMap (nodeDeltaAdds o ctx keys) : List RRset) : Multiset RRset) := by
    intro N2 hN2
    rw [happlied N2, map_flatMap_helper]
    simp only []
    rw [coe_range_flatMap]
    exact pickNodes_partition (nodeDeltaAdds o ctx keys) N2 hN2 tree 0
  have hrems : ∀ N2 : Nat, 0 < N2 →
      ((((zone_tree_sign o ctx keys tree N2 u).2.1.applied.drop u.applied.length).flatMap
        Changeset.removals : List RRset) : Multiset RRset) =
      (((eligList tree).flatMap (nodeDeltaRems o ctx keys) : List RRset) : Multiset RRset) := by
    intro N2 hN2
    rw [happlied N2, map_flatMap_helper]
    simp only []
    rw [coe_range_flatMap]
    exact pickNodes_partition (nodeDeltaRems o ctx keys) N2 hN2 tree 0
  have hcommon : ∀ N2 : Nat, 0 < N2 →
      tmFold ((List.range N2).flatMap
        (fun i => (pickNodes N2 i 0 tree).map (nodeDeltaExp o ctx keys))) =
      tmFold ((eligList tree).map (nodeDeltaExp o ctx keys)) := by
    intro N2 hN2
    apply tmFold_perm
    rw [← Multiset.coe_eq_coe, coe_range_flatMap]
    have hpart := pickNodes_partition (fun n => [nodeDeltaExp o ctx keys n]) N2 hN2 tree 0
    simp only [list_flatMap_singleton] at hpart
    exact hpart
  refine ⟨⟨hret N, hret 1⟩, ?_, ?_, ?_, ?_⟩
  · rw [hadds N hN, hadds 1 Nat.one_pos]
  · rw [hrems N hN, hrems 1 Nat.one_pos]
  · rw [hexp N, hexp 1, hcommon N hN, hcommon 1 Nat.one_pos]
  · rw [coe_range_flatMap]
    have hpart := pickNodes_partition (fun n => [n]) N hN tree 0
    simp only [flatMap_singleton_id] at hpart
    exact hpart

/-- C5 (witness): the two-node fixture tree signed with 2 threads and
with 1 thread. -/
theorem C5_witness :
    (((zone_tree_sign oracleW ctxStd [zskKey] [nodeA10, nodeA11] 2 update1).1 = none ∧
     (zone_tree_sign oracleW ctxStd [zskKey] [nodeA10, nodeA11] 1 update1).1 = none) ∧
    ((((zone_tree_sign oracleW ctxStd [zskKey] [nodeA10, nodeA11] 2
        update1).2.1.applied.drop update1.applied.length).flatMap
        Changeset.additions : List RRset) : Multiset RRset) =
      ((((zone_tree_sign oracleW ctxStd [zskKey] [nodeA10, nodeA11] 1
        update1).2.1.applied.drop update1.applied.length).flatMap
        Changeset.additions : List RRset) : Multiset RRset) ∧
    ((((zone_tree_sign oracleW ctxStd [zskKey] [nodeA10, nodeA11] 2
        update1).2.1.applied.drop update1.applied.length).flatMap
        Changeset.removals : List RRset) : Multiset RRset) =
      ((((zone_tree_sign oracleW ctxStd [zskKey] [nodeA10, nodeA11] 1
        update1).2.1.applied.drop update1.applied.length).flatMap
        Changeset.removals : List RRset) : Multiset RRset) ∧
    (zone_tree_sign oracleW ctxStd [zskKey] [nodeA10, nodeA11] 2 update1).2.2 =
      (zone_tree_sign oracleW ctxStd [zskKey] [nodeA10, nodeA11] 1 update1).2.2 ∧
    (((List.range 2).flatMap (fun i => pickNodes 2 i 0 [nodeA10, nodeA11]) :
        List ZoneNode) : Multiset ZoneNode) =
      ((eligList [nodeA10, nodeA11] : List ZoneNode) : Multiset ZoneNode)) :=
  C5_parallel_deterministic oracleW ctxStd [zskKey] [nodeA10, nodeA11] 2 update1
    (by decide) (by decide)

/-! ### Claim C6: characterization of one pass under a hard-error-free
oracle, and emptiness of the second pass -/

theorem remove_expired_key_scan_nohard (o : SignOracle)
    (hsoft : ∀ c rd k e, o.check c rd k ≠ SigCheck.hard e)
    (covered : RRset) (rd : Rdata) :
    ∀ keys : List ZoneKey, remove_expired_key_scan o covered rd keys =
      (if anyKeyValidates o keys covered rd then EntryOutcome.keep
       else EntryOutcome.drop) := by
  intro keys
  induction keys with
  | nil => simp [remove_expired_key_scan, anyKeyValidates]
  | cons k rest ih =>
    by_cases hk : k.keytag = rd.keytag
    · by_cases ha : (k.is_active || k.is_post_active) = true
      · have hskip : ((!k.is_active && !k.is_post_active) || k.keytag != rd.keytag) = false := by
          rcases Bool.or_eq_true_iff.mp ha with h | h <;> simp [h, hk]
        cases hc : o.check covered rd k with
        | ok =>
          have hany : anyKeyValidates o (k :: rest) covered rd = true := by
            simp [anyKeyValidates, List.any_cons, ha, hk, hc]
          simp [remove_expired_key_scan, hskip, hc, hany]
        | invalid =>
          have hany : anyKeyValidates o (k :: rest) covered rd =
              anyKeyValidates o rest covered rd := by
            simp [anyKeyValidates, List.any_cons, hc]
          simp only [remove_expired_key_scan, hskip, Bool.false_eq_true, if_false, hc]
          rw [ih, hany]
        | hard e => exact absurd hc (hsoft covered rd k e)
      · have hact : k.is_active = false := by
          cases h2 : k.is_active
          · rfl
          · exact absurd (by simp [h2]) ha
        have hpost : k.is_post_active = false := by
          cases h2 : k.is_post_active
          · rfl
          · exact absurd (by simp [h2]) ha
        have hany : anyKeyValidates o (k :: rest) covered rd =
            anyKeyValidates o rest covered rd := by
          simp [anyKeyValidates, List.any_cons, hact, hpost]
        simp only [remove_expired_key_scan, hact, hpost, Bool.not_false, Bool.true_and,
          Bool.true_or, if_true]
        rw [ih, hany]
    · have hskip : ((!k.is_active && !k.is_post_active) || k.keytag != rd.keytag) = true := by
        simp [hk]
      have hany : anyKeyValidates o (k :: rest) covered rd =
          anyKeyValidates o rest covered rd := by
        simp [anyKeyValidates, List.any_cons, hk]
      simp only [remove_expired_key_scan, hskip, if_true]
      rw [ih, hany]

theorem remove_expired_entries_nohard (o : SignOracle) (keys : List ZoneKey) (covered : RRset)
    (hsoft : ∀ c rd k e, o.check c rd k ≠ SigCheck.hard e) :
    ∀ (l acc : List Rdata) (exp : Nat), ∃ e2,
      remove_expired_entries o keys covered l acc exp =
        .ok (acc ++ l.filter (fun rd => !anyKeyValidates o keys covered rd), e2) := by
  intro l
  induction l with
  | nil => intro acc exp; exact ⟨exp, by simp [remove_expired_entries]⟩
  | cons rd rest ih =>
    intro acc exp
    rw [show remove_expired_entries o keys covered (rd :: rest) acc exp =
      (match remove_expired_key_scan o covered rd keys with
       | .keep => remove_expired_entries o keys covered rest acc
           (knot_time_min rd.expiration exp)
       | .drop => remove_expired_entries o keys covered rest (acc ++ [rd]) exp
       | .abort e => .error e) from rfl]
    rw [remove_expired_key_scan_nohard o hsoft covered rd keys]
    by_cases hv : anyKeyValidates o keys covered rd
    · obtain ⟨e2, he⟩ := ih acc (knot_time_min rd.expiration exp)
      exact ⟨e2, by simp [hv, he]⟩
    · obtain ⟨e2, he⟩ := ih (acc ++ [rd]) exp
      refine ⟨e2, ?_⟩
      simp only [hv, Bool.false_eq_true, if_false]
      rw [he]
      simp [hv, List.append_assoc]

theorem remove_expired_rrsigs_nohard (o : SignOracle) (keys : List ZoneKey)
    (covered rrsigs : RRset) (cs : Changeset) (exp : Nat)
    (hsoft : ∀ c rd k e, o.check c rd k ≠ SigCheck.hard e) :
    ∃ e2, remove_expired_rrsigs o keys covered rrsigs cs exp =
      .ok ((if (expiredRemovals o keys covered rrsigs).isEmpty then cs
            else changeset_add_removal cs
              { owner := rrsigs.owner, ty := KNOT_RRTYPE_RRSIG,
                rdatas := expiredRemovals o keys covered rrsigs }), e2) := by
  simp only [remove_expired_rrsigs]
  by_cases hemp : knot_rrset_empty rrsigs
  · refine ⟨exp, ?_⟩
    have hrd : rrsigs.rdatas = [] := by simpa [knot_rrset_empty] using hemp
    simp [hemp, expiredRemovals, knot_synth_rrsig, hrd]
  · obtain ⟨e2, he⟩ := remove_expired_entries_nohard o keys covered hsoft
      (knot_synth_rrsig covered.ty rrsigs.rdatas) [] exp
    refine ⟨e2, ?_⟩
    simp only [hemp, Bool.false_eq_true, if_false, he, List.nil_append]
    rw [show (List.filter (fun rd => !anyKeyValidates o keys covered rd)
      (knot_synth_rrsig covered.ty rrsigs.rdatas)) = expiredRemovals o keys covered rrsigs
      from rfl]
    by_cases hre : (expiredRemovals o keys covered rrsigs).isEmpty <;> simp [hre]

theorem add_missing_keys_loop_char (o : SignOracle) (covered rrsigs : RRset) :
    ∀ (l : List ZoneKey) (acc : List Rdata) (exp : Nat),
      (add_missing_keys_loop o covered rrsigs l acc exp).1 =
        acc ++ (l.filter (fun k => knot_zone_sign_use_key k covered &&
          !valid_signature_exists o covered rrsigs k)).map (fun k => o.sign covered k) := by
  intro l
  induction l with
  | nil => intro acc exp; simp [add_missing_keys_loop]
  | cons k rest ih =>
    intro acc exp
    by_cases huse : knot_zone_sign_use_key k covered
    · by_cases hvalid : valid_signature_exists o covered rrsigs k
      · simp only [add_missing_keys_loop, huse, hvalid, Bool.not_true, if_false, if_true,
          Bool.false_eq_true]
        rw [ih]
        simp [huse, hvalid]
      · simp only [add_missing_keys_loop, huse, hvalid, Bool.not_true, Bool.not_false,
          if_false, if_true, Bool.false_eq_true]
        rw [ih]
        simp [huse, hvalid, List.append_assoc]
    · simp only [add_missing_keys_loop, huse, Bool.not_false, if_true]
      rw [ih]
      simp [huse]

theorem add_missing_rrsigs_char (o : SignOracle) (ctx : DnssecCtx) (keys : List ZoneKey)
    (covered rrsigs : RRset) (cs : Changeset) (exp : Nat)
    (hoff : ctx.offline_rrsig = none) :
    (add_missing_rrsigs o ctx keys covered rrsigs cs exp).1 =
      (if (addsForRRset o keys covered rrsigs).isEmpty then cs
       else changeset_add_addition cs
         { owner := covered.owner, ty := KNOT_RRTYPE_RRSIG,
           rdatas := addsForRRset o keys covered rrsigs }) := by
  have hoffc : (covered.ty == KNOT_RRTYPE_DNSKEY && covered.owner == ctx.zone_dname &&
      ctx.offline_rrsig.isSome) = false := by
    simp [hoff]
  simp only [add_missing_rrsigs, hoffc, Bool.false_eq_true, if_false]
  rcases hrun : add_missing_keys_loop o covered rrsigs keys [] exp with ⟨to_add, e2⟩
  have := add_missing_keys_loop_char o covered rrsigs keys [] exp
  rw [hrun] at this
  simp only [List.nil_append] at this
  subst this
  simp only [addsForRRset]
  by_cases hae : (((keys.filter (fun k => knot_zone_sign_use_key k covered &&
      !valid_signature_exists o covered rrsigs k)).map
        (fun k => o.sign covered k)).isEmpty) <;>
    simp [hae]

theorem resign_rrset_char (o : SignOracle) (ctx : DnssecCtx) (keys : List ZoneKey)
    (covered rrsigs : RRset) (cs : Changeset) (exp : Nat)
    (hsoft : ∀ c rd k e, o.check c rd k ≠ SigCheck.hard e)
    (hoff : ctx.offline_rrsig = none) :
    ∃ cs2 e2, resign_rrset o ctx keys covered rrsigs cs exp = .ok (cs2, e2) ∧
      cs2.removals = cs.removals ++
        (if (expiredRemovals o keys covered rrsigs).isEmpty then []
         else [{ owner := rrsigs.owner, ty := KNOT_RRTYPE_RRSIG,
                 rdatas := expiredRemovals o keys covered rrsigs }]) ∧
      cs2.additions = cs.additions ++
        (if (addsForRRset o keys covered rrsigs).isEmpty then []
         else [{ owner := covered.owner, ty := KNOT_RRTYPE_RRSIG,
                 rdatas := addsForRRset o keys covered rrsigs }]) := by
  obtain ⟨e1, he1⟩ := remove_expired_rrsigs_nohard o keys covered rrsigs cs exp hsoft
  simp only [resign_rrset, he1]
  rcases hadd : add_missing_rrsigs o ctx keys covered rrsigs _ e1 with ⟨cs2, e2⟩
  have hchar := add_missing_rrsigs_char o ctx keys covered rrsigs
    (if (expiredRemovals o keys covered rrsigs).isEmpty then cs
     else changeset_add_removal cs
       { owner := rrsigs.owner, ty := KNOT_RRTYPE_RRSIG,
         rdatas := expiredRemovals o keys covered rrsigs }) e1 hoff
  rw [hadd] at hchar
  rw [show ((cs2, e2) : Changeset × Nat).1 = cs2 from rfl] at hchar
  refine ⟨cs2, e2, rfl, ?_, ?_⟩
  · rw [hchar]
    by_cases hre : (expiredRemovals o keys covered rrsigs).isEmpty <;>
      by_cases hae : (addsForRRset o keys covered rrsigs).isEmpty <;>
        simp [hre, hae, changeset_add_addition, changeset_add_removal]
  · rw [hchar]
    by_cases hre : (expiredRemovals o keys covered rrsigs).isEmpty <;>
      by_cases hae : (addsForRRset o keys covered rrsigs).isEmpty <;>
        simp [hre, hae, changeset_add_addition, changeset_add_removal]

theorem changeset_eq_of_fields (a b : Changeset) (h1 : a.additions = b.additions)
    (h2 : a.removals = b.removals) : a = b := by
  cases a
  cases b
  simp_all

theorem flatMap_ifRRset (owner ty : Nat) (L : List Rdata) :
    ((if L.isEmpty then ([] : List RRset)
      else [{ owner := owner, ty := ty, rdatas := L }]).flatMap RRset.rdatas) = L := by
  cases L with
  | nil => rfl
  | cons a rest => simp

theorem csRemRdatas_append_rrsets (cs : Changeset) (extra : List RRset) :
    csRemRdatas { cs with removals := cs.removals ++ extra } =
      csRemRdatas cs ++ extra.flatMap RRset.rdatas := by
  simp [csRemRdatas]

theorem csAddRdatas_append_rrsets (cs : Changeset) (extra : List RRset) :
    csAddRdatas { cs with additions := cs.additions ++ extra } =
      csAddRdatas cs ++ extra.flatMap RRset.rdatas := by
  simp [csAddRdatas]

theorem standalone_foldl_char (node : ZoneNode) (rrsigs : RRset) :
    ∀ (l : List Rdata) (cs : Changeset),
      csRemRdatas (l.foldl (fun cs2 rd =>
        if node_rrtype_exists node rd.type_covered then cs2
        else changeset_add_removal cs2
          { owner := rrsigs.owner, ty := rrsigs.ty, rdatas := [rd] }) cs) =
        csRemRdatas cs ++ l.filter (fun rd => !node_rrtype_exists node rd.type_covered) ∧
      (l.foldl (fun cs2 rd =>
        if node_rrtype_exists node rd.type_covered then cs2
        else changeset_add_removal cs2
          { owner := rrsigs.owner, ty := rrsigs.ty, rdatas := [rd] }) cs).additions =
        cs.additions := by
  intro l
  induction l with
  | nil => intro cs; simp
  | cons rd rest ih =>
    intro cs
    by_cases hex : node_rrtype_exists node rd.type_covered
    · simp only [List.foldl_cons, hex, if_true, List.filter_cons, Bool.not_true,
        Bool.false_eq_true]
      obtain ⟨h1, h2⟩ := ih cs
      exact ⟨by rw [h1]; simp, h2⟩
    · simp only [List.foldl_cons, hex, if_false, List.filter_cons, Bool.not_false,
        Bool.false_eq_true, if_true]
      obtain ⟨h1, h2⟩ := ih (changeset_add_removal cs
        { owner := rrsigs.owner, ty := rrsigs.ty, rdatas := [rd] })
      constructor
      · rw [h1]
        simp [csRemRdatas, changeset_add_removal, List.append_assoc]
      · rw [h2]
        simp [changeset_add_removal]

theorem remove_standalone_rrsigs_char (node : ZoneNode) (rrsigs : RRset) (cs : Changeset) :
    csRemRdatas (remove_standalone_rrsigs node rrsigs cs) =
      csRemRdatas cs ++ rrsigs.rdatas.filter
        (fun rd => !node_rrtype_exists node rd.type_covered) ∧
    (remove_standalone_rrsigs node rrsigs cs).additions = cs.additions :=
  standalone_foldl_char node rrsigs rrsigs.rdatas cs

theorem standalone_foldl_noop (node : ZoneNode) (rrsigs : RRset) :
    ∀ (l : List Rdata) (cs : Changeset),
      (∀ rd ∈ l, node_rrtype_exists node rd.type_covered = true) →
      l.foldl (fun cs2 rd =>
        if node_rrtype_exists node rd.type_covered then cs2
        else changeset_add_removal cs2
          { owner := rrsigs.owner, ty := rrsigs.ty, rdatas := [rd] }) cs = cs := by
  intro l
  induction l with
  | nil => intro cs h; rfl
  | cons rd rest ih =>
    intro cs h
    have hrd := h rd (by simp)
    simp only [List.foldl_cons, hrd, if_true]
    exact ih cs (fun rd2 h2 => h rd2 (by simp [h2]))

theorem remove_standalone_rrsigs_noop (node : ZoneNode) (rrsigs : RRset) (cs : Changeset)
    (h : ∀ rd ∈ rrsigs.rdatas, node_rrtype_exists node rd.type_covered = true) :
    remove_standalone_rrsigs node rrsigs cs = cs :=
  standalone_foldl_noop node rrsigs rrsigs.rdatas cs h

theorem sign_node_rrsets_loop_char (o : SignOracle) (ctx : DnssecCtx) (keys : List ZoneKey)
    (node : ZoneNode) (rrsigs : RRset)
    (hsoft : ∀ c rd k e, o.check c rd k ≠ SigCheck.hard e)
    (hdrop : ctx.rrsig_drop_existing = false)
    (hoff : ctx.offline_rrsig = none) :
    ∀ (l : List RRset) (cs : Changeset) (exp : Nat), ∃ cs2 e2,
      sign_node_rrsets_loop o ctx keys node rrsigs l cs exp = .ok (cs2, e2) ∧
      csRemRdatas cs2 = csRemRdatas cs ++
        (l.filter (fun r => !(r.ty == KNOT_RRTYPE_RRSIG) &&
          knot_zone_sign_rr_should_be_signed (some node) r)).flatMap
          (fun r => expiredRemovals o keys r rrsigs) ∧
      csAddRdatas cs2 = csAddRdatas cs ++
        (l.filter (fun r => !(r.ty == KNOT_RRTYPE_RRSIG) &&
          knot_zone_sign_rr_should_be_signed (some node) r)).flatMap
          (fun r => addsForRRset o keys r rrsigs) := by
  intro l
  induction l with
  | nil => intro cs exp; exact ⟨cs, exp, rfl, by simp, by simp⟩
  | cons r rest ih =>
    intro cs exp
    by_cases hty : (r.ty == KNOT_RRTYPE_RRSIG) = true
    · obtain ⟨cs2, e2, hrun, h1, h2⟩ := ih cs exp
      exact ⟨cs2, e2, by simp only [sign_node_rrsets_loop, hty, if_true]; exact hrun,
        by rw [h1]; simp [List.filter_cons, hty],
        by rw [h2]; simp [List.filter_cons, hty]⟩
    · by_cases hsign : knot_zone_sign_rr_should_be_signed (some node) r
      · obtain ⟨cs3, e3, hres, hr1, hr2⟩ := resign_rrset_char o ctx keys r rrsigs cs exp
          hsoft hoff
        obtain ⟨cs2, e2, hrun, h1, h2⟩ := ih cs3 e3
        refine ⟨cs2, e2, ?_, ?_, ?_⟩
        · simp only [sign_node_rrsets_loop, hty, hsign, hdrop, Bool.not_true, if_false,
            if_true, Bool.false_eq_true, hres]
          exact hrun
        · rw [h1]
          have : csRemRdatas cs3 = csRemRdatas cs ++ expiredRemovals o keys r rrsigs := by
            have hsplit : cs3.removals = cs.removals ++
                (if (expiredRemovals o keys r rrsigs).isEmpty then []
                 else [{ owner := rrsigs.owner, ty := KNOT_RRTYPE_RRSIG,
                         rdatas := expiredRemovals o keys r rrsigs }]) := hr1
            calc csRemRdatas cs3 = cs3.removals.flatMap RRset.rdatas := rfl
              _ = csRemRdatas cs ++ expiredRemovals o keys r rrsigs := by
                  rw [hsplit, List.flatMap_append, flatMap_ifRRset]
                  rfl
          rw [this]
          simp [List.filter_cons, hty, hsign, List.append_assoc]
        · rw [h2]
          have : csAddRdatas cs3 = csAddRdatas cs ++ addsForRRset o keys r rrsigs := by
            have hsplit : cs3.additions = cs.additions ++
                (if (addsForRRset o keys r rrsigs).isEmpty then []
                 else [{ owner := r.owner, ty := KNOT_RRTYPE_RRSIG,
                         rdatas := addsForRRset o keys r rrsigs }]) := hr2
            calc csAddRdatas cs3 = cs3.additions.flatMap RRset.rdatas := rfl
              _ = csAddRdatas cs ++ addsForRRset o keys r rrsigs := by
                  rw [hsplit, List.flatMap_append, flatMap_ifRRset]
                  rfl
          rw [this]
          simp [List.filter_cons, hty, hsign, List.append_assoc]
      · obtain ⟨cs2, e2, hrun, h1, h2⟩ := ih cs exp
        refine ⟨cs2, e2, ?_, ?_, ?_⟩
        · simp only [sign_node_rrsets_loop, hty, hsign, Bool.not_false, if_false, if_true,
            Bool.false_eq_true]
          exact hrun
        · rw [h1]
          simp [List.filter_cons, hty, hsign]
        · rw [h2]
          simp [List.filter_cons, hty, hsign]

theorem nodeDelta_char (o : SignOracle) (ctx : DnssecCtx) (keys : List ZoneKey)
    (node : ZoneNode)
    (hsoft : ∀ c rd k e, o.check c rd k ≠ SigCheck.hard e)
    (hdrop : ctx.rrsig_drop_existing = false)
    (hoff : ctx.offline_rrsig = none) :
    ∃ d e2, nodeDelta o ctx keys node = .ok (d, e2) ∧
      csRemRdatas d = nodeRemovalRdatas o keys node ∧
      csAddRdatas d = nodeAdditionRdatas o keys node := by
  obtain ⟨cs2, e2, hrun, h1, h2⟩ := sign_node_rrsets_loop_char o ctx keys node
    (node_rrset node KNOT_RRTYPE_RRSIG) hsoft hdrop hoff node.rrsets csEmpty 0
  refine ⟨remove_standalone_rrsigs node (node_rrset node KNOT_RRTYPE_RRSIG) cs2, e2, ?_, ?_, ?_⟩
  · simp only [nodeDelta, sign_node_rrsets, hrun]
  · obtain ⟨hs1, hs2⟩ := remove_standalone_rrsigs_char node
      (node_rrset node KNOT_RRTYPE_RRSIG) cs2
    rw [hs1, h1]
    simp only [csRemRdatas, csEmpty, List.flatMap_nil, List.nil_append]
    rw [nodeRemovalRdatas]
    rfl
  · obtain ⟨hs1, hs2⟩ := remove_standalone_rrsigs_char node
      (node_rrset node KNOT_RRTYPE_RRSIG) cs2
    have : csAddRdatas (remove_standalone_rrsigs node
        (node_rrset node KNOT_RRTYPE_RRSIG) cs2) = csAddRdatas cs2 := by
      simp [csAddRdatas, hs2]
    rw [this, h2]
    simp only [csAddRdatas, csEmpty, List.flatMap_nil, List.nil_append]
    rw [nodeAdditionRdatas]
    rfl

theorem nodeDelta_empty_of (o : SignOracle) (ctx : DnssecCtx) (keys : List ZoneKey)
    (node : ZoneNode)
    (hsoft : ∀ c rd k e, o.check c rd k ≠ SigCheck.hard e)
    (hdrop : ctx.rrsig_drop_existing = false)
    (hoff : ctx.offline_rrsig = none)
    (hA : ∀ r ∈ node.rrsets, (!(r.ty == KNOT_RRTYPE_RRSIG) &&
        knot_zone_sign_rr_should_be_signed (some node) r) = true →
      expiredRemovals o keys r (node_rrset node KNOT_RRTYPE_RRSIG) = [])
    (hB : ∀ r ∈ node.rrsets, (!(r.ty == KNOT_RRTYPE_RRSIG) &&
        knot_zone_sign_rr_should_be_signed (some node) r) = true →
      addsForRRset o keys r (node_rrset node KNOT_RRTYPE_RRSIG) = [])
    (hC : ∀ rd ∈ (node_rrset node KNOT_RRTYPE_RRSIG).rdatas,
      node_rrtype_exists node rd.type_covered = true) :
    ∃ e2, nodeDelta o ctx keys node = .ok (csEmpty, e2) := by
  have hloop : ∀ (l : List RRset) (cs : Changeset) (exp : Nat),
      (∀ r ∈ l, (!(r.ty == KNOT_RRTYPE_RRSIG) &&
        knot_zone_sign_rr_should_be_signed (some node) r) = true →
        expiredRemovals o keys r (node_rrset node KNOT_RRTYPE_RRSIG) = [] ∧
        addsForRRset o keys r (node_rrset node KNOT_RRTYPE_RRSIG) = []) →
      ∃ e2, sign_node_rrsets_loop o ctx keys node
        (node_rrset node KNOT_RRTYPE_RRSIG) l cs exp = .ok (cs, e2) := by
    intro l
    induction l with
    | nil => intro cs exp h; exact ⟨exp, rfl⟩
    | cons r rest ih =>
      intro cs exp h
      by_cases hty : (r.ty == KNOT_RRTYPE_RRSIG) = true
      · obtain ⟨e2, hrun⟩ := ih cs exp (fun r2 h2 hp => h r2 (by simp [h2]) hp)
        exact ⟨e2, by simp only [sign_node_rrsets_loop, hty, if_true]; exact hrun⟩
      · by_cases hsign : knot_zone_sign_rr_should_be_signed (some node) r
        · have hp : (!(r.ty == KNOT_RRTYPE_RRSIG) &&
              knot_zone_sign_rr_should_be_signed (some node) r) = true := by
            simp [hty, hsign]
          obtain ⟨hre, hae⟩ := h r (by simp) hp
          obtain ⟨cs3, e3, hres, hr1, hr2⟩ := resign_rrset_char o ctx keys r
            (node_rrset node KNOT_RRTYPE_RRSIG) cs exp hsoft hoff
          have hcs3 : cs3 = cs := by
            apply changeset_eq_of_fields
            · rw [hr2]
              simp [hae]
            · rw [hr1]
              simp [hre]
          obtain ⟨e2, hrun⟩ := ih cs e3 (fun r2 h2 hp2 => h r2 (by simp [h2]) hp2)
          refine ⟨e2, ?_⟩
          simp only [sign_node_rrsets_loop, hty, hsign, hdrop, Bool.not_true, if_false,
            if_true, Bool.false_eq_true, hres, hcs3]
          exact hrun
        · obtain ⟨e2, hrun⟩ := ih cs exp (fun r2 h2 hp => h r2 (by simp [h2]) hp)
          refine ⟨e2, ?_⟩
          simp only [sign_node_rrsets_loop, hty, hsign, Bool.not_false, if_false, if_true,
            Bool.false_eq_true]
          exact hrun
  obtain ⟨e2, hrun⟩ := hloop node.rrsets csEmpty 0
    (fun r hr hp => ⟨hA r hr hp, hB r hr hp⟩)
  refine ⟨e2, ?_⟩
  simp only [nodeDelta, sign_node_rrsets, hrun]
  rw [remove_standalone_rrsigs_noop node _ csEmpty hC]

theorem find?_append_cases (p : RRset → Bool) :
    ∀ l1 l2 : List RRset, (l1 ++ l2).find? p =
      (match l1.find? p with
       | some x => some x
       | none => l2.find? p) := by
  intro l1 l2
  induction l1 with
  | nil => simp
  | cons a rest ih =>
    cases hp : p a with
    | true => simp [List.find?_cons, hp]
    | false => simp [List.find?_cons, hp, ih]

theorem find?_filter_of_imp (p q : RRset → Bool) (h : ∀ r, q r = false → p r = false) :
    ∀ l : List RRset, (l.filter q).find? p = l.find? p := by
  intro l
  induction l with
  | nil => rfl
  | cons a rest ih =>
    cases hq : q a with
    | true =>
      cases hp : p a with
      | true => simp [List.filter_cons, hq, List.find?_cons, hp]
      | false => simp [List.filter_cons, hq, List.find?_cons, hp, ih]
    | false =>
      have hpa := h a hq
      simp [List.filter_cons, hq, List.find?_cons, hpa, ih]

theorem filter_nosig_find?_none (l : List RRset) :
    List.find? (fun r => r.ty == KNOT_RRTYPE_RRSIG)
      (l.filter (fun r => r.ty != KNOT_RRTYPE_RRSIG)) = none := by
  apply List.find?_eq_none.mpr
  intro r hr
  have h2 := (List.mem_filter.mp hr).2
  simp only [bne] at h2
  intro hc
  rw [hc] at h2
  simp at h2

theorem applyNodeCS_sig_rdatas (n : ZoneNode) (d : Changeset) :
    (node_rrset (applyNodeCS n d) KNOT_RRTYPE_RRSIG).rdatas =
      (node_rrset n KNOT_RRTYPE_RRSIG).rdatas.filter
        (fun rd => decide (rd ∉ csRemRdatas d)) ++ csAddRdatas d := by
  simp only [applyNodeCS]
  set ns := ((node_rrset n KNOT_RRTYPE_RRSIG).rdatas.filter
    (fun rd => decide (rd ∉ csRemRdatas d))) ++ csAddRdatas d with hns
  simp only [node_rrset]
  rw [find?_append_cases, filter_nosig_find?_none]
  by_cases h : ns.isEmpty = true
  · have hz : ns = [] := List.isEmpty_iff.mp h
    simp [h, hz]
  · simp [h]

theorem applyNodeCS_node_rrset_ne (n : ZoneNode) (d : Changeset) (t : Nat)
    (ht : ¬ t = KNOT_RRTYPE_RRSIG) :
    node_rrset (applyNodeCS n d) t = node_rrset n t := by
  have himp : ∀ r : RRset, (r.ty != KNOT_RRTYPE_RRSIG) = false → (r.ty == t) = false := by
    intro r hq
    simp only [bne] at hq
    have h46 : r.ty = KNOT_RRTYPE_RRSIG := by
      by_contra hc
      rw [beq_eq_false_iff_ne.mpr hc] at hq
      simp at hq
    rw [h46]
    exact beq_eq_false_iff_ne.mpr (fun he => ht he.symm)
  have htail : ∀ ns : List Rdata,
      List.find? (fun r => r.ty == t)
        (if ns.isEmpty then ([] : List RRset)
         else [{ owner := n.owner, ty := KNOT_RRTYPE_RRSIG, rdatas := ns }]) = none := by
    intro ns
    by_cases h : ns.isEmpty = true
    · simp [h]
    · have hne : (KNOT_RRTYPE_RRSIG == t) = false :=
        beq_eq_false_iff_ne.mpr (fun he => ht he.symm)
      simp [h, List.find?_cons, hne]
  simp only [applyNodeCS, node_rrset]
  rw [find?_append_cases, find?_filter_of_imp _ _ himp, htail]
  cases hfind : List.find? (fun r => r.ty == t) n.rrsets with
  | none => simp
  | some r => simp

theorem applyNodeCS_mem (n : ZoneNode) (d : Changeset) (r : RRset)
    (h : r ∈ (applyNodeCS n d).rrsets) :
    (r ∈ n.rrsets ∧ (r.ty == KNOT_RRTYPE_RRSIG) = false) ∨ r.ty = KNOT_RRTYPE_RRSIG := by
  simp only [applyNodeCS] at h
  rcases List.mem_append.mp h with h1 | h2
  · obtain ⟨hm, hp⟩ := List.mem_filter.mp h1
    left
    refine ⟨hm, ?_⟩
    simpa [bne] using hp
  · right
    by_cases hemp : (((node_rrset n KNOT_RRTYPE_RRSIG).rdatas.filter
        (fun rd => decide (rd ∉ csRemRdatas d))) ++ csAddRdatas d).isEmpty
    · rw [if_pos hemp] at h2
      cases h2
    · rw [if_neg hemp] at h2
      rcases List.mem_cons.mp h2 with heq | hfalse
      · rw [heq]
      · cases hfalse

theorem should_be_signed_apply (n : ZoneNode) (d : Changeset) (r : RRset) :
    knot_zone_sign_rr_should_be_signed (some (applyNodeCS n d)) r =
      knot_zone_sign_rr_should_be_signed (some n) r := by
  simp [knot_zone_sign_rr_should_be_signed, applyNodeCS]

theorem applyNodeCS_exists_of_nonsig (n : ZoneNode) (d : Changeset) (t : Nat) (r3 : RRset)
    (h3 : r3 ∈ n.rrsets) (hne : (r3.ty == KNOT_RRTYPE_RRSIG) = false) (ht : r3.ty = t) :
    node_rrtype_exists (applyNodeCS n d) t = true := by
  simp only [node_rrtype_exists, applyNodeCS, List.any_eq_true]
  refine ⟨r3, ?_, by simp [ht]⟩
  apply List.mem_append_left
  apply List.mem_filter.mpr
  exact ⟨h3, by simp [bne]; simpa using hne⟩

theorem applyNodeCS_exists_sig (n : ZoneNode) (d : Changeset)
    (hne : ((node_rrset n KNOT_RRTYPE_RRSIG).rdatas.filter
      (fun rd => decide (rd ∉ csRemRdatas d)) ++ csAddRdatas d) ≠ []) :
    node_rrtype_exists (applyNodeCS n d) KNOT_RRTYPE_RRSIG = true := by
  simp only [node_rrtype_exists, applyNodeCS, List.any_eq_true]
  have hemp : (((node_rrset n KNOT_RRTYPE_RRSIG).rdatas.filter
      (fun rd => decide (rd ∉ csRemRdatas d))) ++ csAddRdatas d).isEmpty = false := by
    cases hl : ((node_rrset n KNOT_RRTYPE_RRSIG).rdatas.filter
        (fun rd => decide (rd ∉ csRemRdatas d))) ++ csAddRdatas d with
    | nil => exact absurd hl hne
    | cons a rest => simp
  refine ⟨⟨n.owner, KNOT_RRTYPE_RRSIG,
    ((node_rrset n KNOT_RRTYPE_RRSIG).rdatas.filter
      (fun rd => decide (rd ∉ csRemRdatas d))) ++ csAddRdatas d⟩, ?_, by simp⟩
  apply List.mem_append_right
  rw [hemp]
  simp

theorem use_key_active (k : ZoneKey) (r : RRset) (h : knot_zone_sign_use_key k r = true) :
    (k.is_active || k.is_post_active) = true := by
  by_contra hc
  have h1 : k.is_active = false := by
    cases ha : k.is_active
    · rfl
    · exact absurd (by simp [ha]) hc
  have h2 : k.is_post_active = false := by
    cases hp : k.is_post_active
    · rfl
    · exact absurd (by simp [hp]) hc
  simp [knot_zone_sign_use_key, h1, h2] at h

theorem valid_signature_exists_iff (o : SignOracle) (covered rrsigs : RRset) (k : ZoneKey) :
    valid_signature_exists o covered rrsigs k = true ↔
      ∃ rd ∈ rrsigs.rdatas, rd.keytag = k.keytag ∧ rd.type_covered = covered.ty ∧
        o.check covered rd k = SigCheck.ok := by
  simp [valid_signature_exists, List.any_eq_true, and_assoc]

theorem anyKeyValidates_iff (o : SignOracle) (keys : List ZoneKey) (covered : RRset)
    (rd : Rdata) :
    anyKeyValidates o keys covered rd = true ↔
      ∃ k ∈ keys, (k.is_active || k.is_post_active) = true ∧ k.keytag = rd.keytag ∧
        o.check covered rd k = SigCheck.ok := by
  simp [anyKeyValidates, List.any_eq_true, and_assoc]

theorem node_rrtype_exists_iff (n : ZoneNode) (t : Nat) :
    node_rrtype_exists n t = true ↔ ∃ r ∈ n.rrsets, r.ty = t := by
  simp [node_rrtype_exists, List.any_eq_true]

theorem coveredRRsets_mem_iff (n : ZoneNode) (r : RRset) :
    r ∈ coveredRRsets n ↔ r ∈ n.rrsets ∧ (r.ty == KNOT_RRTYPE_RRSIG) = false ∧
      knot_zone_sign_rr_should_be_signed (some n) r = true := by
  simp [coveredRRsets, List.mem_filter, and_assoc]

theorem expiredRemovals_mem_iff (o : SignOracle) (keys : List ZoneKey) (covered rrsigs : RRset)
    (rd : Rdata) :
    rd ∈ expiredRemovals o keys covered rrsigs ↔
      rd ∈ rrsigs.rdatas ∧ rd.type_covered = covered.ty ∧
        anyKeyValidates o keys covered rd = false := by
  simp [expiredRemovals, knot_synth_rrsig, List.mem_filter, and_assoc]
  exact fun _ => and_comm

theorem addsForRRset_mem_iff (o : SignOracle) (keys : List ZoneKey) (r sigs : RRset)
    (rd : Rdata) :
    rd ∈ addsForRRset o keys r sigs ↔
      ∃ k ∈ keys, knot_zone_sign_use_key k r = true ∧
        valid_signature_exists o r sigs k = false ∧ o.sign r k = rd := by
  simp [addsForRRset, List.mem_map, List.mem_filter, and_assoc]

theorem nodeRemovalRdatas_mem_iff (o : SignOracle) (keys : List ZoneKey) (n : ZoneNode)
    (rd : Rdata) :
    rd ∈ nodeRemovalRdatas o keys n ↔
      (∃ r ∈ coveredRRsets n,
        rd ∈ expiredRemovals o keys r (node_rrset n KNOT_RRTYPE_RRSIG)) ∨
      (rd ∈ (node_rrset n KNOT_RRTYPE_RRSIG).rdatas ∧
        node_rrtype_exists n rd.type_covered = false) := by
  simp [nodeRemovalRdatas, List.mem_append, List.mem_flatMap, List.mem_filter]

theorem nodeAdditionRdatas_mem_iff (o : SignOracle) (keys : List ZoneKey) (n : ZoneNode)
    (rd : Rdata) :
    rd ∈ nodeAdditionRdatas o keys n ↔
      ∃ r ∈ coveredRRsets n, rd ∈ addsForRRset o keys r (node_rrset n KNOT_RRTYPE_RRSIG) := by
  simp [nodeAdditionRdatas, List.mem_flatMap]

theorem pass2_premises (o : SignOracle) (keys : List ZoneKey) (n : ZoneNode) (d : Changeset)
    (hfresh : ∀ c k, o.check c (o.sign c k) k = SigCheck.ok)
    (hkeytag : ∀ c k, (o.sign c k).keytag = k.keytag)
    (htc : ∀ c k, (o.sign c k).type_covered = c.ty)
    (htypes : (n.rrsets.map RRset.ty).Nodup)
    (hrem : csRemRdatas d = nodeRemovalRdatas o keys n)
    (hadd : csAddRdatas d = nodeAdditionRdatas o keys n) :
    (∀ r ∈ (applyNodeCS n d).rrsets, (!(r.ty == KNOT_RRTYPE_RRSIG) &&
        knot_zone_sign_rr_should_be_signed (some (applyNodeCS n d)) r) = true →
      expiredRemovals o keys r (node_rrset (applyNodeCS n d) KNOT_RRTYPE_RRSIG) = []) ∧
    (∀ r ∈ (applyNodeCS n d).rrsets, (!(r.ty == KNOT_RRTYPE_RRSIG) &&
        knot_zone_sign_rr_should_be_signed (some (applyNodeCS n d)) r) = true →
      addsForRRset o keys r (node_rrset (applyNodeCS n d) KNOT_RRTYPE_RRSIG) = []) ∧
    (∀ rd ∈ (node_rrset (applyNodeCS n d) KNOT_RRTYPE_RRSIG).rdatas,
      node_rrtype_exists (applyNodeCS n d) rd.type_covered = true) := by
  have huniq : ∀ r1 ∈ n.rrsets, ∀ r2 ∈ n.rrsets, r1.ty = r2.ty → r1 = r2 := by
    intro r1 h1 r2 h2 he
    exact List.inj_on_of_nodup_map htypes h1 h2 he
  have hsig0 := applyNodeCS_sig_rdatas n d
  have hsig := hsig0
  rw [hrem, hadd] at hsig
  have hmemNew : ∀ rd, rd ∈ (node_rrset (applyNodeCS n d) KNOT_RRTYPE_RRSIG).rdatas ↔
      (rd ∈ (node_rrset n KNOT_RRTYPE_RRSIG).rdatas ∧
        ¬ rd ∈ nodeRemovalRdatas o keys n) ∨
      rd ∈ nodeAdditionRdatas o keys n := by
    intro rd
    rw [hsig]
    simp [List.mem_append, List.mem_filter]
  have hcovOf : ∀ r ∈ (applyNodeCS n d).rrsets, (!(r.ty == KNOT_RRTYPE_RRSIG) &&
      knot_zone_sign_rr_should_be_signed (some (applyNodeCS n d)) r) = true →
      r ∈ coveredRRsets n := by
    intro r hr hp
    have hp1 : (r.ty == KNOT_RRTYPE_RRSIG) = false := by
      cases hb : (r.ty == KNOT_RRTYPE_RRSIG)
      · rfl
      · rw [hb] at hp; simp at hp
    have hp2 : knot_zone_sign_rr_should_be_signed (some (applyNodeCS n d)) r = true := by
      cases hs : knot_zone_sign_rr_should_be_signed (some (applyNodeCS n d)) r
      · rw [hs] at hp; simp at hp
      · rfl
    rcases applyNodeCS_mem n d r hr with ⟨hmem, _⟩ | h46
    · apply (coveredRRsets_mem_iff n r).mpr
      exact ⟨hmem, hp1, by rw [← should_be_signed_apply n d r]; exact hp2⟩
    · rw [h46] at hp1
      simp at hp1
  have hvalidOfSign : ∀ (r : RRset) (k : ZoneKey), k ∈ keys →
      knot_zone_sign_use_key k r = true →
      anyKeyValidates o keys r (o.sign r k) = true := by
    intro r k hk huse
    apply (anyKeyValidates_iff o keys r (o.sign r k)).mpr
    exact ⟨k, hk, use_key_active k r huse, (hkeytag r k).symm, hfresh r k⟩
  refine ⟨?_, ?_, ?_⟩
  · intro r hr hp
    have hrcov := hcovOf r hr hp
    have hrmem := ((coveredRRsets_mem_iff n r).mp hrcov).1
    apply List.eq_nil_iff_forall_not_mem.mpr
    intro rd hrd
    rw [expiredRemovals_mem_iff] at hrd
    obtain ⟨hmem2, htcr, hnv⟩ := hrd
    rcases (hmemNew rd).mp hmem2 with ⟨hold, hnotR⟩ | hfreshm
    · apply hnotR
      apply (nodeRemovalRdatas_mem_iff o keys n rd).mpr
      left
      refine ⟨r, hrcov, ?_⟩
      exact (expiredRemovals_mem_iff o keys r (node_rrset n KNOT_RRTYPE_RRSIG) rd).mpr
        ⟨hold, htcr, hnv⟩
    · obtain ⟨r2, hr2cov, hrdadd⟩ := (nodeAdditionRdatas_mem_iff o keys n rd).mp hfreshm
      obtain ⟨k, hk, huse, hvinv, hsgn⟩ :=
        (addsForRRset_mem_iff o keys r2 (node_rrset n KNOT_RRTYPE_RRSIG) rd).mp hrdadd
      have hty : r2.ty = r.ty := by
        rw [← hsgn] at htcr
        rw [htc] at htcr
        exact htcr
      have hr2mem := ((coveredRRsets_mem_iff n r2).mp hr2cov).1
      have heq2 : r2 = r := huniq r2 hr2mem r hrmem hty
      rw [heq2] at hsgn
      rw [← hsgn] at hnv
      rw [hvalidOfSign r k hk (by rw [← heq2]; exact huse)] at hnv
      cases hnv
  · intro r hr hp
    have hrcov := hcovOf r hr hp
    have hrmem := ((coveredRRsets_mem_iff n r).mp hrcov).1
    apply List.eq_nil_iff_forall_not_mem.mpr
    intro rd hrd
    obtain ⟨k, hk, huse, hvinv, hsgn⟩ :=
      (addsForRRset_mem_iff o keys r
        (node_rrset (applyNodeCS n d) KNOT_RRTYPE_RRSIG) rd).mp hrd
    have hvalid : valid_signature_exists o r
        (node_rrset (applyNodeCS n d) KNOT_RRTYPE_RRSIG) k = true := by
      apply (valid_signature_exists_iff o r
        (node_rrset (applyNodeCS n d) KNOT_RRTYPE_RRSIG) k).mpr
      by_cases hv1 : valid_signature_exists o r (node_rrset n KNOT_RRTYPE_RRSIG) k = true
      · obtain ⟨rd2, hrd2, hkt, htc2, hok⟩ :=
          (valid_signature_exists_iff o r (node_rrset n KNOT_RRTYPE_RRSIG) k).mp hv1
        refine ⟨rd2, ?_, hkt, htc2, hok⟩
        apply (hmemNew rd2).mpr
        left
        refine ⟨hrd2, ?_⟩
        intro hinR
        rcases (nodeRemovalRdatas_mem_iff o keys n rd2).mp hinR with
          ⟨r3, hr3cov, hexp⟩ | ⟨_, hnoex⟩
        · obtain ⟨_, htc3, hnv3⟩ :=
            (expiredRemovals_mem_iff o keys r3 (node_rrset n KNOT_RRTYPE_RRSIG) rd2).mp hexp
          have hr3mem := ((coveredRRsets_mem_iff n r3).mp hr3cov).1
          have he3 : r3 = r := huniq r3 hr3mem r hrmem (by rw [← htc3, htc2])
          rw [he3] at hnv3
          have hv2 : anyKeyValidates o keys r rd2 = true :=
            (anyKeyValidates_iff o keys r rd2).mpr
              ⟨k, hk, use_key_active k r huse, hkt.symm, hok⟩
          rw [hv2] at hnv3
          cases hnv3
        · rw [htc2] at hnoex
          have hv2 : node_rrtype_exists n r.ty = true :=
            (node_rrtype_exists_iff n r.ty).mpr ⟨r, hrmem, rfl⟩
          rw [hv2] at hnoex
          cases hnoex
      · have hv1f : valid_signature_exists o r (node_rrset n KNOT_RRTYPE_RRSIG) k = false := by
          cases hb : valid_signature_exists o r (node_rrset n KNOT_RRTYPE_RRSIG) k
          · rfl
          · exact absurd hb hv1
        refine ⟨o.sign r k, ?_, hkeytag r k, htc r k, hfresh r k⟩
        apply (hmemNew (o.sign r k)).mpr
        right
        apply (nodeAdditionRdatas_mem_iff o keys n (o.sign r k)).mpr
        refine ⟨r, hrcov, ?_⟩
        exact (addsForRRset_mem_iff o keys r
          (node_rrset n KNOT_RRTYPE_RRSIG) (o.sign r k)).mpr ⟨k, hk, huse, hv1f, rfl⟩
    rw [hvalid] at hvinv
    cases hvinv
  · intro rd hmem2
    rcases (hmemNew rd).mp hmem2 with ⟨hold, hnotR⟩ | hfreshm
    · have hex : node_rrtype_exists n rd.type_covered = true := by
        cases hb : node_rrtype_exists n rd.type_covered
        · exfalso
          apply hnotR
          apply (nodeRemovalRdatas_mem_iff o keys n rd).mpr
          right
          exact ⟨hold, hb⟩
        · rfl
      obtain ⟨r3, hr3, hty3⟩ := (node_rrtype_exists_iff n rd.type_covered).mp hex
      by_cases h46 : r3.ty = KNOT_RRTYPE_RRSIG
      · rw [← hty3, h46]
        apply applyNodeCS_exists_sig n d
        intro hnil
        rw [hsig0, hnil] at hmem2
        cases hmem2
      · exact hty3 ▸ applyNodeCS_exists_of_nonsig n d r3.ty r3 hr3
          (beq_eq_false_iff_ne.mpr h46) rfl
    · obtain ⟨r2, hr2cov, hrdadd⟩ := (nodeAdditionRdatas_mem_iff o keys n rd).mp hfreshm
      obtain ⟨k, hk, huse, hvinv, hsgn⟩ :=
        (addsForRRset_mem_iff o keys r2 (node_rrset n KNOT_RRTYPE_RRSIG) rd).mp hrdadd
      have htyr : rd.type_covered = r2.ty := by
        rw [← hsgn, htc]
      obtain ⟨hr2mem, h46f, _⟩ := (coveredRRsets_mem_iff n r2).mp hr2cov
      rw [htyr]
      exact applyNodeCS_exists_of_nonsig n d r2.ty r2 hr2mem h46f rfl

theorem runDeltas_empty (o : SignOracle) (ctx : DnssecCtx) (keys : List ZoneKey) :
    ∀ (l : List ZoneNode), (∀ n ∈ l, ∃ e, nodeDelta o ctx keys n = .ok (csEmpty, e)) →
      ∃ e, runDeltas o ctx keys l = .ok (csEmpty, e) := by
  intro l
  induction l with
  | nil => intro h; exact ⟨0, rfl⟩
  | cons n rest ih =>
    intro h
    obtain ⟨e1, h1⟩ := h n (by simp)
    obtain ⟨e2, h2⟩ := ih (fun m hm => h m (by simp [hm]))
    refine ⟨knot_time_min e1 e2, ?_⟩
    simp [runDeltas, h1, h2, csAppend_empty_left]

theorem mem_takeWhile_mem (p : WorkerSt → Bool) :
    ∀ (l : List WorkerSt) (w : WorkerSt), w ∈ l.takeWhile p → w ∈ l := by
  intro l
  induction l with
  | nil => intro w h; simp at h
  | cons a rest ih =>
    intro w h
    rw [List.takeWhile_cons] at h
    by_cases hp : p a = true
    · rw [if_pos hp] at h
      rcases List.mem_cons.mp h with he | hr
      · simp [he]
      · simp [ih w hr]
    · rw [if_neg hp] at h
      cases h

theorem zone_tree_sign_pass2 (o : SignOracle) (ctx : DnssecCtx) (keys : List ZoneKey)
    (tree : List ZoneNode) (N : Nat) (u : ZoneUpdate)
    (hP : ∀ m ∈ tree, eligibleNode m = true →
      ∃ e, nodeDelta o ctx keys m = .ok (csEmpty, e)) :
    (zone_tree_sign o ctx keys tree N u).1 = none ∧
    (zone_tree_sign o ctx keys tree N u).2.1.new_cont = u.new_cont ∧
    ∃ l, (zone_tree_sign o ctx keys tree N u).2.1.applied = u.applied ++ l ∧
      ∀ cs ∈ l, cs = csEmpty := by
  rw [zone_tree_sign_eq]
  set ws := (List.range N).map (fun i => tree_sign_thread o ctx keys N i tree worker_init)
    with hws
  have hw : ∀ w ∈ ws, w.errcode = none ∧ w.changeset = csEmpty := by
    intro w hwm
    rw [hws] at hwm
    obtain ⟨i, hi, hweq⟩ := List.mem_map.mp hwm
    have hpick : ∀ m ∈ pickNodes N i 0 tree,
        ∃ e, nodeDelta o ctx keys m = .ok (csEmpty, e) := by
      intro m hm
      have hel := pickNodes_subset N i tree 0 m hm
      simp only [eligList] at hel
      have hmf := List.mem_filter.mp hel
      exact hP m hmf.1 hmf.2
    obtain ⟨e0, hrun⟩ := runDeltas_empty o ctx keys (pickNodes N i 0 tree) hpick
    obtain ⟨k2, hth⟩ := worker_run_char o ctx keys N i tree csEmpty e0 hrun
    rw [← hweq, hth]
    exact ⟨rfl, rfl⟩
  have hpre := merge_workers_prefixed ws u (knot_time_add ctx.now ctx.rrsig_lifetime)
  refine ⟨?_, merge_workers_new_cont ws u _, okChangesets ws, hpre.2, ?_⟩
  · rw [hpre.1]
    exact (firstWorkerErr_eq_none ws).mpr (fun w hwm => (hw w hwm).1)
  · intro cs hcs
    obtain ⟨w, hwm, hweq⟩ := List.mem_map.mp hcs
    have hwm2 : w ∈ ws := mem_takeWhile_mem _ ws w hwm
    rw [← hweq]
    exact (hw w hwm2).2

theorem treeAfterPass_empty (o : SignOracle) (ctx : DnssecCtx) (keys : List ZoneKey)
    (tree : List ZoneNode)
    (hsoft : ∀ c rd k e, o.check c rd k ≠ SigCheck.hard e)
    (hfresh : ∀ c k, o.check c (o.sign c k) k = SigCheck.ok)
    (hkeytag : ∀ c k, (o.sign c k).keytag = k.keytag)
    (htc : ∀ c k, (o.sign c k).type_covered = c.ty)
    (hdrop : ctx.rrsig_drop_existing = false)
    (hoff : ctx.offline_rrsig = none)
    (htypes : ∀ n ∈ tree, (n.rrsets.map RRset.ty).Nodup) :
    ∀ m ∈ treeAfterPass o ctx keys tree, eligibleNode m = true →
      ∃ e, nodeDelta o ctx keys m = .ok (csEmpty, e) := by
  intro m hm helig2
  simp only [treeAfterPass] at hm
  obtain ⟨n, hn, hmeq⟩ := List.mem_map.mp hm
  by_cases helig : eligibleNode n = true
  · obtain ⟨d, e2, hok, hremc, haddc⟩ := nodeDelta_char o ctx keys n hsoft hdrop hoff
    have hme : m = applyNodeCS n d := by
      rw [← hmeq]
      simp [helig, hok]
    obtain ⟨hA, hB, hC⟩ := pass2_premises o keys n d hfresh hkeytag htc (htypes n hn)
      hremc haddc
    rw [hme]
    exact nodeDelta_empty_of o ctx keys (applyNodeCS n d) hsoft hdrop hoff hA hB hC
  · have hme : m = n := by
      rw [← hmeq]
      simp [helig]
    rw [hme] at helig2
    exact absurd helig2 helig

theorem knot_zone_sign_ok_of (o : SignOracle) (ctx : DnssecCtx) (keys : List ZoneKey)
    (u : ZoneUpdate) (hthr : 1 ≤ ctx.signing_threads)
    (h1err : (zone_tree_sign o ctx keys u.new_cont.nodes ctx.signing_threads u).1 = none)
    (h2err : (zone_tree_sign o ctx keys
        (zone_tree_sign o ctx keys u.new_cont.nodes
          ctx.signing_threads u).2.1.new_cont.nsec3_nodes
        ctx.signing_threads
        (zone_tree_sign o ctx keys u.new_cont.nodes ctx.signing_threads u).2.1).1 = none) :
    knot_zone_sign o ctx keys u =
      (none,
       (zone_tree_sign o ctx keys
         (zone_tree_sign o ctx keys u.new_cont.nodes
           ctx.signing_threads u).2.1.new_cont.nsec3_nodes
         ctx.signing_threads
         (zone_tree_sign o ctx keys u.new_cont.nodes ctx.signing_threads u).2.1).2.1,
       knot_time_min
         (zone_tree_sign o ctx keys u.new_cont.nodes ctx.signing_threads u).2.2
         (zone_tree_sign o ctx keys
           (zone_tree_sign o ctx keys u.new_cont.nodes
             ctx.signing_threads u).2.1.new_cont.nsec3_nodes
           ctx.signing_threads
           (zone_tree_sign o ctx keys u.new_cont.nodes ctx.signing_threads u).2.1).2.2) := by
  have hth2 : ¬ ctx.signing_threads < 1 := by omega
  simp only [knot_zone_sign, if_neg hth2]
  rw [h1err]
  simp only [Option.isSome_none, Bool.false_eq_true, if_false]
  rw [h2err]
  simp

/-- C6: Running a full sign pass (knot_zone_sign) a second time immediately
after a successful pass, with zone contents updated by the first pass and
the key set unchanged, succeeds and produces an empty changeset: every
changeset the second pass merges into the update schedules no additions
and no removals.  The oracle is assumed free of hard verification errors,
fresh signatures verify against their key with matching keytag and covered
type, signatures are not force-dropped, no offline RRSIG store is used,
and each node holds at most one RRset per type. -/
theorem C6_second_pass_empty (o : SignOracle) (ctx : DnssecCtx) (keys : List ZoneKey)
    (u : ZoneUpdate)
    (hthr : 1 ≤ ctx.signing_threads)
    (hsoft : ∀ c rd k e, o.check c rd k ≠ SigCheck.hard e)
    (hfresh : ∀ c k, o.check c (o.sign c k) k = SigCheck.ok)
    (hkeytag : ∀ c k, (o.sign c k).keytag = k.keytag)
    (htc : ∀ c k, (o.sign c k).type_covered = c.ty)
    (hdrop : ctx.rrsig_drop_existing = false)
    (hoff : ctx.offline_rrsig = none)
    (htypes : ∀ n ∈ u.new_cont.nodes ++ u.new_cont.nsec3_nodes,
      (n.rrsets.map RRset.ty).Nodup) :
    (knot_zone_sign o ctx keys
      { u with new_cont := contentsAfterPass o ctx keys u.new_cont }).1 = none ∧
    ∀ cs ∈ (knot_zone_sign o ctx keys
        { u with new_cont := contentsAfterPass o ctx keys u.new_cont }).2.1.applied.drop
          u.applied.length, cs = csEmpty := by
  have hP1 := treeAfterPass_empty o ctx keys u.new_cont.nodes hsoft hfresh hkeytag htc
    hdrop hoff (fun n hn => htypes n (List.mem_append_left _ hn))
  have hP2 := treeAfterPass_empty o ctx keys u.new_cont.nsec3_nodes hsoft hfresh hkeytag htc
    hdrop hoff (fun n hn => htypes n (List.mem_append_right _ hn))
  set u2 : ZoneUpdate := { u with new_cont := contentsAfterPass o ctx keys u.new_cont }
    with hu2
  have hn1 : u2.new_cont.nodes = treeAfterPass o ctx keys u.new_cont.nodes := rfl
  have hn2 : u2.new_cont.nsec3_nodes = treeAfterPass o ctx keys u.new_cont.nsec3_nodes := rfl
  have hap : u2.applied = u.applied := rfl
  obtain ⟨h1err, h1cont, l1, h1app, h1emp⟩ :=
    zone_tree_sign_pass2 o ctx keys (treeAfterPass o ctx keys u.new_cont.nodes)
      ctx.signing_threads u2 hP1
  rw [← hn1] at h1err h1cont h1app
  obtain ⟨h2err, h2cont, l2, h2app, h2emp⟩ :=
    zone_tree_sign_pass2 o ctx keys (treeAfterPass o ctx keys u.new_cont.nsec3_nodes)
      ctx.signing_threads
      (zone_tree_sign o ctx keys u2.new_cont.nodes ctx.signing_threads u2).2.1 hP2
  have halign : (zone_tree_sign o ctx keys u2.new_cont.nodes
      ctx.signing_threads u2).2.1.new_cont.nsec3_nodes =
      treeAfterPass o ctx keys u.new_cont.nsec3_nodes := by
    rw [h1cont, hn2]
  rw [← halign] at h2err h2app
  have heq := knot_zone_sign_ok_of o ctx keys u2 hthr h1err h2err
  constructor
  · rw [heq]
  · intro cs hcs
    rw [heq] at hcs
    simp only at hcs
    rw [h2app, h1app, hap, List.append_assoc, List.drop_left] at hcs
    rcases List.mem_append.mp hcs with h | h
    · exact h1emp cs h
    · exact h2emp cs h

theorem C6_witness :
    (knot_zone_sign oracleW ctxStd [zskKey]
      { update1 with
        new_cont := contentsAfterPass oracleW ctxStd [zskKey] update1.new_cont }).1 = none ∧
    ∀ cs ∈ (knot_zone_sign oracleW ctxStd [zskKey]
        { update1 with
          new_cont := contentsAfterPass oracleW ctxStd [zskKey] update1.new_cont
        }).2.1.applied.drop update1.applied.length, cs = csEmpty :=
  C6_second_pass_empty oracleW ctxStd [zskKey] update1
    (by decide)
    (by intro c rd k e; simp only [oracleW]; split <;> simp)
    (by intro c k; simp [oracleW])
    (fun c k => rfl)
    (fun c k => rfl)
    rfl
    rfl
    (by decide)

end Knot
